import Mathlib

/-!
Verification of the seL4 microkit system-image builder (Python tool) against
its natural-language specification.  Python integers are modelled as `Nat`
(all quantities handled by the tool are non-negative; the 64-bit machine
arithmetic helpers apply an explicit `% 2^64`).  Functions that can raise an
exception (`assert`, `raise`) are modelled as `Option`/`Except` values.
-/

namespace Microkit

/-! ## Numeric primitives (`tool/sel4coreplat/util.py`, `tool/microkit/util.py`) -/

/-- Python `int.bit_length` for a natural number. -/
def bit_length (x : Nat) : Nat := if x = 0 then 0 else Nat.log2 x + 1

/-- Source: `msb(x) = x.bit_length() - 1`.  Every call site in the tool passes
`x ≥ 1`; there this agrees with Python (Python yields `-1` at `x = 0`,
this `Nat` model yields `0`). -/
def msb (x : Nat) : Nat := bit_length x - 1

/-- Python's `x & -x` on a positive unbounded int: the lowest set bit.
On two's-complement integers `x & -x = x - (x & (x - 1))`, which is the
form used here so that the value is a `Nat` computation. -/
def lowBit (x : Nat) : Nat := x - (x &&& (x - 1))

/-- Source: `lsb(x) = msb(x & -x)`. -/
def lsb (x : Nat) : Nat := msb (lowBit x)

/-- Source: `round_up(n, x)`; `divmod`-based, defined for `x > 0`. -/
def round_up (n x : Nat) : Nat := if n % x = 0 then n else n + x - n % x

/-- Source: `round_down(n, x)`. -/
def round_down (n x : Nat) : Nat := if n % x = 0 then n else n - n % x

/-- Source: `is_power_of_two(n)`; its `assert n > 0` is modelled as the side
condition `0 < n` at the use sites (callers reaching it with `n = 0` abort). -/
def is_power_of_two (n : Nat) : Bool := n &&& (n - 1) == 0

/-- Source (`tool/microkit/util.py`): `machine_wrap(n) = n & (2**64 - 1)`. -/
def machine_wrap (n : Nat) : Nat := n % 2 ^ 64

/-- Source: `machine_add(a, b) = machine_wrap(a + b)`. -/
def machine_add (a b : Nat) : Nat := machine_wrap (a + b)

/-- Source: `machine_sub(a, b) = machine_wrap(a - b)` on Python ints, i.e.
the value `(a - b) mod 2^64`. -/
def machine_sub (a b : Nat) : Nat := (((a : Int) - (b : Int)) % ((2 : Int) ^ 64)).toNat

/-- Source: `paddr_to_kernel_vaddr(kernel_virtual_base, paddr)`. -/
def paddr_to_kernel_vaddr (kernel_virtual_base paddr : Nat) : Nat :=
  machine_add paddr kernel_virtual_base

/-- Source: `kernel_vaddr_to_paddr(kernel_virtual_base, kernel_vaddr)`. -/
def kernel_vaddr_to_paddr (kernel_virtual_base kernel_vaddr : Nat) : Nat :=
  machine_sub kernel_vaddr kernel_virtual_base

/-! ## Memory regions -/

/-- Source: `MemoryRegion` dataclass; `base` is inclusive, `end` exclusive
(`end` is a Lean keyword, hence the field name `end_`). -/
structure MemoryRegion where
  base : Nat
  end_ : Nat
deriving DecidableEq

/-- Source: the `size` property, `end - base`. -/
def MemoryRegion.size (r : MemoryRegion) : Nat := r.end_ - r.base

lemma machine_wrap_lt (n : Nat) : machine_wrap n < 2 ^ 64 :=
  Nat.mod_lt _ (by norm_num)

lemma machine_sub_pos (b e : Nat) (hb : b < 2 ^ 64) (he : e < 2 ^ 64) (hne : b ≠ e) :
    0 < machine_sub e b := by
  unfold machine_sub at *
  have h : ((2:Int)^64) = 18446744073709551616 := by norm_num
  have h2 : (2:Nat)^64 = 18446744073709551616 := by norm_num
  rw [h] at *; rw [h2] at *
  omega

lemma machine_sub_machine_add (b e sz : Nat) (hsz : sz ≤ machine_sub e b) :
    machine_sub e (machine_add b sz) = machine_sub e b - sz := by
  unfold machine_sub machine_add machine_wrap at *
  have h : ((2:Int)^64) = 18446744073709551616 := by norm_num
  have h2 : (2:Nat)^64 = 18446744073709551616 := by norm_num
  rw [h] at *; rw [h2] at *
  omega

lemma two_pow_msb_le (n : Nat) (hn : 0 < n) : 2 ^ msb n ≤ n := by
  unfold msb bit_length
  rw [if_neg (by omega)]
  simpa using Nat.log2_self_le (by omega)

/-- The loop of `MemoryRegion.aligned_power_of_two_regions`
(`tool/microkit/util.py`), operating on kernel virtual addresses.  The two
proof arguments record that both cursors are 64-bit values — true of the
values the caller passes, since they are produced by `machine_add` — and
make the decreasing measure `machine_sub e base` available. -/
def apot_loop (kernel_virtual_base max_bits base e : Nat)
    (hb : base < 2 ^ 64) (he : e < 2 ^ 64) : List MemoryRegion :=
  if h : base = e then []
  else
    let size := machine_sub e base
    let size_bits := msb size
    let bits0 := if base = 0 then size_bits else min size_bits (lsb base)
    let bits := if bits0 > max_bits then max_bits else bits0
    let sz := 1 <<< bits
    let base_paddr := kernel_vaddr_to_paddr kernel_virtual_base base
    let end_paddr := kernel_vaddr_to_paddr kernel_virtual_base (base + sz)
    MemoryRegion.mk base_paddr end_paddr ::
      apot_loop kernel_virtual_base max_bits (machine_add base sz) e
        (machine_wrap_lt _) he
termination_by machine_sub e base
decreasing_by
  have hpos : 0 < machine_sub e base := machine_sub_pos base e hb he h
  have hb0 : bits ≤ size_bits := by
    simp only [bits, bits0]
    split <;> split <;> omega
  have hsz : sz ≤ machine_sub e base := by
    have h1 : (2:Nat) ^ bits ≤ 2 ^ size_bits := Nat.pow_le_pow_right (by omega) hb0
    have h2 : (2:Nat) ^ size_bits ≤ size := two_pow_msb_le size hpos
    simp only [sz, Nat.one_shiftLeft]
    omega
  rw [machine_sub_machine_add base e sz hsz]
  have hsz1 : 1 ≤ sz := by simp only [sz, Nat.one_shiftLeft]; exact Nat.one_le_two_pow
  omega

/-- The block-size exponent one loop iteration picks, as a function of
`max_bits`, the cursor and the remaining size (the `size_bits`/`bits`
computation of the loop body, for use in statements about `apot_loop`). -/
def apot_bits (max_bits base size : Nat) : Nat :=
  if (if base = 0 then msb size else min (msb size) (lsb base)) > max_bits
  then max_bits
  else (if base = 0 then msb size else min (msb size) (lsb base))

/-- Source: `MemoryRegion.aligned_power_of_two_regions(kernel_virtual_base,
max_bits)` from `tool/microkit/util.py`: translate the region to kernel
virtual addresses (with 64-bit wrap-around), carve off aligned
power-of-two blocks, and translate each block back to physical addresses. -/
def MemoryRegion.aligned_power_of_two_regions (r : MemoryRegion)
    (kernel_virtual_base max_bits : Nat) : List MemoryRegion :=
  apot_loop kernel_virtual_base max_bits
    (paddr_to_kernel_vaddr kernel_virtual_base r.base)
    (paddr_to_kernel_vaddr kernel_virtual_base r.end_)
    (machine_wrap_lt _) (machine_wrap_lt _)

/-- A region list carves `[b, e)` into consecutive non-empty pieces: the first
piece starts at `b`, each piece ends where the next begins, and the last ends
at `e`.  This expresses both orderedness and exact concatenation. -/
def coversChain : Nat → Nat → List MemoryRegion → Prop
  | b, e, [] => b = e
  | b, e, r :: rs => r.base = b ∧ b < r.end_ ∧ coversChain r.end_ e rs

/-! ## Disjoint memory regions (`DisjointMemoryRegion`, both `util.py` files) -/

/-- The `_check` assertion of `DisjointMemoryRegion`: consecutive regions
satisfy `next.base ≥ previous.end` (sorted and non-overlapping). -/
def regions_check : List MemoryRegion → Bool
  | r1 :: r2 :: rs => decide (r1.end_ ≤ r2.base) && regions_check (r2 :: rs)
  | _ => true

/-- Source: `DisjointMemoryRegion.insert_region(base, end)` — scan for the
first region whose `base` exceeds the new `end`, insert there. -/
def insert_region (l : List MemoryRegion) (base e : Nat) : List MemoryRegion :=
  match l with
  | [] => [MemoryRegion.mk base e]
  | r :: rs =>
      if e < r.base then MemoryRegion.mk base e :: r :: rs
      else r :: insert_region rs base e

/-- Source: `DisjointMemoryRegion.remove_region(base, end)` — find the first
region containing `[base, end)` (else `ValueError`, modelled by `none`) and
remove it exactly, trim its start or end, or split it. -/
def remove_region (l : List MemoryRegion) (base e : Nat) : Option (List MemoryRegion) :=
  match l with
  | [] => none
  | r :: rs =>
      if r.base ≤ base ∧ e ≤ r.end_ then
        some (if r.base = base ∧ r.end_ = e then rs
              else if r.base = base then MemoryRegion.mk e r.end_ :: rs
              else if r.end_ = e then MemoryRegion.mk r.base base :: rs
              else MemoryRegion.mk r.base base :: MemoryRegion.mk e r.end_ :: rs)
      else (remove_region rs base e).map (r :: ·)

/-- The set of addresses covered by a region list. -/
def covered (l : List MemoryRegion) : Set Nat :=
  { a | ∃ r ∈ l, r.base ≤ a ∧ a < r.end_ }

/-- All regions of a list are well-formed (`base ≤ end`). -/
def regions_wf (l : List MemoryRegion) : Prop :=
  ∀ r ∈ l, r.base ≤ r.end_

/-- One operation on a `DisjointMemoryRegion`. -/
inductive RegionOp where
  | ins (base e : Nat)
  | rem (base e : Nat)
deriving DecidableEq

/-- Apply one operation (a `remove_region` of an uncovered range fails). -/
def apply_op (l : List MemoryRegion) : RegionOp → Option (List MemoryRegion)
  | .ins b e => some (insert_region l b e)
  | .rem b e => remove_region l b e

/-- Apply a sequence of operations. -/
def apply_ops (l : List MemoryRegion) : List RegionOp → Option (List MemoryRegion)
  | [] => some l
  | op :: ops =>
      match apply_op l op with
      | some l' => apply_ops l' ops
      | none => none

/-- The claim's precondition on a single inserted region: it overlaps no
existing member (half-open interval disjointness). -/
def no_overlap (l : List MemoryRegion) (b e : Nat) : Bool :=
  l.all (fun r => e ≤ r.base || r.end_ ≤ b)

/-- The amended precondition for one operation.  An insert must be disjoint
from every member and, beyond the claim's wording, must not end exactly at a
member's base (`insert_region` would place it after that member, breaking
sortedness).  A remove must be a well-formed interval contained in one
member. -/
def op_ok (l : List MemoryRegion) : RegionOp → Prop
  | .ins b e => b ≤ e ∧ ∀ r ∈ l, e < r.base ∨ r.end_ ≤ b
  | .rem b e => b ≤ e ∧ ∃ r ∈ l, r.base ≤ b ∧ e ≤ r.end_

/-- Every operation of a sequence satisfies its precondition in the state in
which it runs. -/
def ops_ok (l : List MemoryRegion) : List RegionOp → Prop
  | [] => True
  | op :: ops =>
      op_ok l op ∧
      match apply_op l op with
      | some l' => ops_ok l' ops
      | none => True

/-- The set reached from `A` by adding each inserted interval and subtracting
each removed interval, in sequence order. -/
def target_set (A : Set Nat) : List RegionOp → Set Nat
  | [] => A
  | .ins b e :: ops => target_set (A ∪ Set.Ico b e) ops
  | .rem b e :: ops => target_set (A \ Set.Ico b e) ops

/-! ## Invocation serialization (`tool/sel4coreplat/sel4.py`) -/

/-- The eight little-endian bytes of a 64-bit word. -/
def le8 (w : Nat) : List Nat :=
  [w % 256, w / 256 % 256, w / 256 ^ 2 % 256, w / 256 ^ 3 % 256,
   w / 256 ^ 4 % 256, w / 256 ^ 5 % 256, w / 256 ^ 6 % 256, w / 256 ^ 7 % 256]

/-- Python `struct.pack("<Q", w)`: eight little-endian bytes; `struct.error`
(modelled by `none`) when the value does not fit in 64 bits. -/
def packQ (w : Nat) : Option (List Nat) :=
  if w < 2 ^ 64 then some (le8 w) else none

/-- Pack a word sequence, as `struct.pack("<QQ…", …)` does. -/
def pack_words : List Nat → Option (List Nat)
  | [] => some []
  | w :: ws =>
      match packQ w, pack_words ws with
      | some b, some rest => some (b ++ rest)
      | _, _ => none

/-- Decode a byte stream into its 64-bit little-endian words (trailing
partial words are dropped). -/
def wordsOf : List Nat → List Nat
  | b0 :: b1 :: b2 :: b3 :: b4 :: b5 :: b6 :: b7 :: rest =>
      (b0 + 256 * (b1 + 256 * (b2 + 256 * (b3 + 256 *
        (b4 + 256 * (b5 + 256 * (b6 + 256 * b7))))))) :: wordsOf rest
  | _ => []

/-- Source: `Sel4Invocation.message_info_new(label, caps, extra_caps, length)`
with its four `assert`s (modelled by `none` on violation). -/
def message_info_new (label caps extra_caps length : Nat) : Option Nat :=
  if label < 2 ^ 50 ∧ caps < 8 ∧ extra_caps < 4 ∧ length < 0x80 then
    some (label <<< 12 ||| caps <<< 9 ||| extra_caps <<< 7 ||| length)
  else none

/-- The repeat data attached by `Sel4Invocation.repeat`: the count together
with the per-iteration increment of the service cap, of each extra-cap field
and of each argument field (fields not named in the source's keyword map have
increment 0; here the increments are given positionally in field order). -/
structure InvocationRepeat where
  count : Nat
  service_incr : Nat
  cap_incrs : List Nat
  arg_incrs : List Nat
deriving DecidableEq

/-- An invocation as `_generic_invocation` consumes it: its label, the
service cap (first dataclass field), the extra-cap words, the argument
words, and the optional repeat data. -/
structure GenericInvocation where
  label : Nat
  service : Nat
  extra_caps : List Nat
  args : List Nat
  rep : Option InvocationRepeat
deriving DecidableEq

/-- Source: `Sel4Invocation._generic_invocation(extra_caps, args)`. -/
def generic_invocation (inv : GenericInvocation) : Option (List Nat) :=
  match message_info_new inv.label 0 inv.extra_caps.length inv.args.length with
  | none => none
  | some tag0 =>
      let tag := match inv.rep with
        | some r => tag0 ||| ((r.count - 1) <<< 32)
        | none => tag0
      match pack_words ([tag, inv.service] ++ inv.extra_caps ++ inv.args) with
      | none => none
      | some base =>
          match inv.rep with
          | some r =>
              match pack_words ([r.service_incr] ++ r.cap_incrs ++ r.arg_incrs) with
              | none => none
              | some extra => some (base ++ extra)
          | none => some (base ++ [])

/-- Source: `Sel4Invocation.repeat(count, **kwargs)` — attaches the repeat
data only when `count > 1`. -/
def set_repeat (inv : GenericInvocation) (count service_incr : Nat)
    (cap_incrs arg_incrs : List Nat) : GenericInvocation :=
  if count > 1 then
    { inv with rep := some ⟨count, service_incr, cap_incrs, arg_incrs⟩ }
  else inv

/-! ## Kernel object allocator (`tool/sel4coreplat/__main__.py`) -/

/-- Source: `UntypedObject` (`tool/sel4coreplat/sel4.py`). -/
structure UntypedObject where
  cap : Nat
  region : MemoryRegion
  is_device : Bool
deriving DecidableEq

/-- Source: `KernelAllocation`. -/
structure KernelAllocation where
  untyped_cap_address : Nat
  phys_addr : Nat
  allocation_order : Nat
deriving DecidableEq

/-- Source: `UntypedAllocator`. -/
structure UntypedAllocator where
  untyped_object : UntypedObject
  allocation_point : Nat
  allocations : List KernelAllocation
deriving DecidableEq

/-- Source: the `base` property. -/
def UntypedAllocator.base (u : UntypedAllocator) : Nat := u.untyped_object.region.base

/-- Source: the `end` property. -/
def UntypedAllocator.end_ (u : UntypedAllocator) : Nat := u.untyped_object.region.end_

/-- Source: `KernelObjectAllocator` state. -/
structure KernelObjectAllocator where
  allocation_idx : Nat
  untyped : List UntypedAllocator
deriving DecidableEq

/-- Source: `KernelObjectAllocator.__init__` — keep only the non-device
untypeds, each with watermark 0 and no recorded allocations. -/
def KernelObjectAllocator.init (kernel_boot_untyped : List UntypedObject) :
    KernelObjectAllocator :=
  { allocation_idx := 0,
    untyped := (kernel_boot_untyped.filter (fun ut => !ut.is_device)).map
      (fun ut => ⟨ut, 0, []⟩) }

/-- The scan of `KernelObjectAllocator.alloc`: first untyped with room for
`count * size` bytes after rounding its watermark up to `size`; returns the
allocation and the updated untyped list. -/
def alloc_loop (size count allocation_idx : Nat) :
    List UntypedAllocator → Option (KernelAllocation × List UntypedAllocator)
  | [] => none
  | ut :: uts =>
      let start := round_up (ut.base + ut.allocation_point) size
      if start + count * size ≤ ut.end_ then
        let allocation : KernelAllocation :=
          ⟨ut.untyped_object.cap, start, allocation_idx⟩
        some (allocation,
          { ut with
              allocation_point := (start - ut.base) + count * size,
              allocations := ut.allocations ++ [allocation] } :: uts)
      else (alloc_loop size count allocation_idx uts).map (fun p => (p.1, ut :: p.2))

/-- Source: `KernelObjectAllocator.alloc(size, count)`; the
`assert is_power_of_two(size)` (whose own `assert size > 0` aborts on zero)
and the final `raise` are modelled by `none`. -/
def KernelObjectAllocator.alloc (k : KernelObjectAllocator) (size count : Nat) :
    Option (KernelAllocation × KernelObjectAllocator) :=
  if 0 < size ∧ is_power_of_two size then
    match alloc_loop size count (k.allocation_idx + 1) k.untyped with
    | some (a, uts) => some (a, ⟨k.allocation_idx + 1, uts⟩)
    | none => none
  else none

/-- The fit test of the `alloc` scan: the untyped has room for `count * size`
bytes once its watermark is rounded up to `size`. -/
def ut_fits (size count : Nat) (u : UntypedAllocator) : Bool :=
  decide (round_up (u.base + u.allocation_point) size + count * size ≤ u.end_)

/-! ## Fixed-address allocator (`InitSystem.allocate_fixed_objects`) -/

/-- Source: `FixedUntypedAlloc` — one device untyped with its watermark. -/
structure FixedUntypedAlloc where
  ut : UntypedObject
  watermark : Nat
deriving DecidableEq

/-- Source: `FixedUntypedAlloc.__contains__`. -/
def FixedUntypedAlloc.contains (f : FixedUntypedAlloc) (address : Nat) : Bool :=
  f.ut.region.base ≤ address && address < f.ut.region.end_

/-- Source: `Sel4UntypedRetype` dataclass (its eight words). -/
structure Sel4UntypedRetype where
  untyped : Nat
  object_type : Nat
  size_bits : Nat
  root : Nat
  node_index : Nat
  node_depth : Nat
  node_offset : Nat
  num_objects : Nat
deriving DecidableEq

/-- Source: `KernelObject` dataclass. -/
structure KernelObject where
  object_type : Nat
  cap : Nat
  cap_address : Nat
  phys_addr : Nat
  name : String
deriving DecidableEq

/-- Numeric value of `Sel4Object.Untyped`. -/
def sel4_object_untyped : Nat := 0

/-- The `FIXED_OBJECT_SIZES` table of `tool/sel4coreplat/sel4.py`, keyed by
the `Sel4Object` numeric values.  `Sel4Object.get_size` itself is absent from
the sources (only its callers are present); modelled from the spec: fixed
object sizes in bytes are given by this table. -/
def fixed_object_sizes : Nat → Option Nat
  | 1 => some (1 <<< 11)
  | 2 => some (1 <<< 4)
  | 3 => some (1 <<< 6)
  | 6 => some (1 <<< 5)
  | 14 => some (1 <<< 12)
  | 9 => some (1 <<< 30)
  | 7 => some (1 <<< 12)
  | 8 => some (1 <<< 21)
  | 10 => some (1 <<< 12)
  | 11 => some (1 <<< 12)
  | 12 => some (1 <<< 12)
  | _ => none

/-- The padding loop of `allocate_fixed_objects`: starting at watermark `wm`
with `padding_required` bytes to fill, repeatedly carve a block of
`1 << min(lsb(wm), msb(padding_required))` bytes. -/
def padding_sizes_loop (wm padding_required : Nat) : List Nat :=
  if h : padding_required = 0 then []
  else
    let pad := 1 <<< min (lsb wm) (msb padding_required)
    pad :: padding_sizes_loop (wm + pad) (padding_required - pad)
termination_by padding_required
decreasing_by
  have h1 : 1 ≤ pad := by simp only [pad, Nat.one_shiftLeft]; exact Nat.one_le_two_pow
  omega

/-- The state of `InitSystem` that `allocate_fixed_objects` reads or writes
(`_cap_address_names`, a dict in the source, is modelled as an association
list in insertion order). -/
structure InitSystem where
  cnode_cap : Nat
  cnode_mask : Nat
  cap_slot : Nat
  last_fixed_address : Nat
  device_untyped : List FixedUntypedAlloc
  invocations : List Sel4UntypedRetype
  cap_address_names : List (Nat × String)
  objects : List KernelObject
deriving DecidableEq

/-- Source: `InitSystem.allocate_fixed_objects(kernel_config, phys_address,
object_type, count, names)`.  Asserts and `raise`s are modelled by `none`;
`int(log2(sz))` on the power-of-two `sz` is `Nat.log2 sz`. -/
def allocate_fixed_objects (s : InitSystem) (phys_address object_type count : Nat)
    (names : List String) : Option (InitSystem × List KernelObject) :=
  if s.last_fixed_address ≤ phys_address then
    match fixed_object_sizes object_type with
    | none => none
    | some alloc_size =>
      if count = names.length then
        match (s.device_untyped.findIdx (fun u => u.contains phys_address)),
              s.device_untyped[(s.device_untyped.findIdx (fun u => u.contains phys_address))]? with
        | _, none => none
        | i, some ut =>
          if phys_address < ut.watermark then none
          else
            let padding_sizes := padding_sizes_loop ut.watermark (phys_address - ut.watermark)
            let pad_invocations := padding_sizes.enum.map (fun p =>
              Sel4UntypedRetype.mk ut.ut.cap sel4_object_untyped (Nat.log2 p.2)
                s.cnode_cap 1 1 (s.cap_slot + p.1) 1)
            let object_cap := s.cap_slot + padding_sizes.length
            let obj_invocation :=
              Sel4UntypedRetype.mk ut.ut.cap object_type 0 s.cnode_cap 1 1 object_cap 1
            match names with
            | [] => none
            | name0 :: _ =>
                let cap_address := s.cnode_mask ||| object_cap
                let kernel_objects : List KernelObject :=
                  [⟨object_type, object_cap, cap_address, phys_address, name0⟩]
                some ({ s with
                          cap_slot := object_cap + 1,
                          last_fixed_address := phys_address + alloc_size,
                          device_untyped := s.device_untyped.set i
                            { ut with watermark := phys_address + alloc_size },
                          invocations := s.invocations ++ pad_invocations ++ [obj_invocation],
                          cap_address_names := s.cap_address_names ++ [(cap_address, name0)],
                          objects := s.objects ++ kernel_objects },
                      kernel_objects)
      else none
  else none

/-! ## The builder's outer sizing loop (`main`, `tool/sel4coreplat/__main__.py`) -/

/-- The two integers the outer loop grows. -/
structure BuildSizes where
  invocation_table_size : Nat
  system_cnode_size : Nat
deriving DecidableEq

/-- Models `2 ** int(ceil(log2(n)))` — exact for every `n ≥ 1` (the source
computes it with float `log2`). -/
def ceil_log2 (n : Nat) : Nat := Nat.clog 2 n

/-- The loop's stopping test. -/
def loop_done (number_of_system_caps invocation_data_size : Nat) (s : BuildSizes) : Bool :=
  number_of_system_caps ≤ s.system_cnode_size &&
    invocation_data_size ≤ s.invocation_table_size

/-- The size update performed when an iteration fails the stopping test. -/
def loop_step (minimum_page_size number_of_system_caps invocation_data_size : Nat)
    (s : BuildSizes) : BuildSizes :=
  { invocation_table_size :=
      max s.invocation_table_size (round_up invocation_data_size minimum_page_size),
    system_cnode_size :=
      max s.system_cnode_size (2 ^ ceil_log2 number_of_system_caps) }

/-! ## ELF symbol patching (`tool/microkit/elf.py`) -/

/-- A loadable segment: virtual address and byte contents. -/
structure ElfSegment where
  virt_addr : Nat
  data : List Nat
deriving DecidableEq

/-- One symbol-table entry: name, value (address) and size. -/
structure ElfSymbol where
  name : String
  value : Nat
  size : Nat
deriving DecidableEq

/-- The part of `ElfFile` that symbol patching touches. -/
structure ElfFile where
  segments : List ElfSegment
  symbols : List ElfSymbol
deriving DecidableEq

/-- Source: the scan inside `find_symbol_if_exists`, with its duplicate
check. -/
def find_symbol_loop (variable_name : String) (found : Option (Nat × Nat)) :
    List ElfSymbol → Except String (Option (Nat × Nat))
  | [] => .ok found
  | s :: ss =>
      if s.name = variable_name then
        match found with
        | none => find_symbol_loop variable_name (some (s.value, s.size)) ss
        | some _ => .error ("Multiple symbols with name " ++ variable_name)
      else find_symbol_loop variable_name found ss

/-- Source: `ElfFile.find_symbol` (raises `KeyError` when absent). -/
def ElfFile.find_symbol (elf : ElfFile) (variable_name : String) :
    Except String (Nat × Nat) :=
  match find_symbol_loop variable_name none elf.symbols with
  | .error m => .error m
  | .ok none => .error ("No symbol named " ++ variable_name ++ " found")
  | .ok (some vs) => .ok vs

/-- Source: the scan of `ElfFile.get_data`. -/
def get_data_loop (vaddr size : Nat) : List ElfSegment → Except String (List Nat)
  | [] => .error "Unable to find data"
  | seg :: segs =>
      if seg.virt_addr ≤ vaddr ∧ vaddr + size ≤ seg.virt_addr + seg.data.length then
        .ok ((seg.data.drop (vaddr - seg.virt_addr)).take size)
      else get_data_loop vaddr size segs

/-- Source: `ElfFile.get_data(vaddr, size)`. -/
def ElfFile.get_data (elf : ElfFile) (vaddr size : Nat) : Except String (List Nat) :=
  get_data_loop vaddr size elf.segments

/-- Python slice assignment `d[offset:offset+len(data)] = data`. -/
def write_bytes (d : List Nat) (offset : Nat) (data : List Nat) : List Nat :=
  d.take offset ++ data ++ d.drop (offset + data.length)

/-- The segment guard of `write_symbol`'s loop. -/
def seg_matches (vaddr size : Nat) (seg : ElfSegment) : Bool :=
  seg.virt_addr ≤ vaddr && vaddr + size ≤ seg.virt_addr + seg.data.length

/-- Source: `ElfFile.write_symbol(variable_name, data)`.  The source patches
every matching segment (its loop has no break); the in-loop
`assert len(data) <= size` fires exactly when some segment matches, which is
modelled as an up-front error in that case. -/
def ElfFile.write_symbol (elf : ElfFile) (variable_name : String) (data : List Nat) :
    Except String ElfFile :=
  match elf.find_symbol variable_name with
  | .error m => .error m
  | .ok (vaddr, size) =>
      if elf.segments.any (seg_matches vaddr size) ∧ size < data.length then
        .error "assertion failed: len(data) <= size"
      else
        .ok { elf with segments := elf.segments.map (fun seg =>
            if seg_matches vaddr size seg then
              { seg with data := write_bytes seg.data (vaddr - seg.virt_addr) data }
            else seg) }

/-- Python `struct.pack("<16s", b)`: truncate or zero-pad to 16 bytes. -/
def pack_16s (b : List Nat) : List Nat :=
  b.take 16 ++ List.replicate (16 - b.length) 0

/-- Python `struct.pack("?", b)`. -/
def pack_bool (b : Bool) : List Nat := [if b then 1 else 0]

/-- The per-PD symbol patch of the builder
(`tool/sel4coreplat/__main__.py:1792-1793`): write the name, packed to 16
bytes, into the symbol `sel4cp_name`, and the passive flag into the symbol
`passive`.  `pd_name_utf8` is the PD name's UTF-8 encoding as a byte list. -/
def patch_pd_symbols (elf : ElfFile) (pd_name_utf8 : List Nat) (passive : Bool) :
    Except String ElfFile :=
  match elf.write_symbol "sel4cp_name" (pack_16s pd_name_utf8) with
  | .error m => .error m
  | .ok elf1 => elf1.write_symbol "passive" (pack_bool passive)

/-! ## XML system description (`tool/sel4coreplat/sysxml.py`) -/

/-- Source: the `Channel` record. -/
structure Channel where
  pd_a : String
  id_a : Int
  pd_b : String
  id_b : Int
deriving DecidableEq

/-- The validation of one `end` element inside `xml2channel` (after the
integer conversion of its `id` attribute). -/
def channel_end_check (e : String × Int) : Except String (String × Int) :=
  if e.2 ≥ 64 then .error "id must be < 64"
  else if e.2 < 0 then .error "id must be >= 0"
  else .ok e

/-- Source: `xml2channel`, applied to the `end` children, each already
reduced to its `(pd, id)` attribute pair. -/
def xml2channel (ends : List (String × Int)) : Except String Channel :=
  match ends.mapM channel_end_check with
  | .error m => .error m
  | .ok [(pa, ia), (pb, ib)] => .ok ⟨pa, ia, pb, ib⟩
  | .ok _ => .error "exactly two end elements must be specified"

/-- Source: `SysMap` (the parse-time record; the source-location tag is
dropped). -/
structure SysMap where
  mr : String
  vaddr : Nat
  perms : String
  cached : Bool
deriving DecidableEq

/-- Source: `SysSetVar`. -/
structure SysSetVar where
  symbol : String
  region_paddr : Option String
  vaddr : Option Nat
deriving DecidableEq

/-- The attributes of one `map` element (string-valued attributes that the
source converts before the modelled code runs are given converted). -/
structure MapElement where
  mr : String
  vaddr : Nat
  perms : Option String
  cached : Option String
  setvar_vaddr : Option String
deriving DecidableEq

/-- ASCII lower-casing of one character (the only case Python's `str.lower`
meets on the attribute values concerned). -/
def lower_char (c : Char) : Char :=
  if 65 ≤ c.toNat ∧ c.toNat ≤ 90 then Char.ofNat (c.toNat + 32) else c

/-- Python `str.lower` on ASCII strings. -/
def py_lower (s : String) : String := String.mk (s.data.map lower_char)

/-- Source: `str_to_bool` (`util.py`); `ValueError` modelled as an error. -/
def str_to_bool (s : String) : Except String Bool :=
  if py_lower s = "true" then .ok true
  else if py_lower s = "false" then .ok false
  else .error "invalid boolean value"

/-- Source: the `map` branch of `xml2pd` (`sysxml.py:288-298`): build the
`SysMap` with defaults `perms="rw"`, `cached="true"`, plus the optional
`setvar_vaddr` entry.  Note that the permissions string is not validated. -/
def xml2pd_map (el : MapElement) : Except String (SysMap × List SysSetVar) :=
  match str_to_bool (el.cached.getD "true") with
  | .error m => .error m
  | .ok cached =>
      let perms := el.perms.getD "rw"
      let m : SysMap := ⟨el.mr, el.vaddr, perms, cached⟩
      let setvars : List SysSetVar :=
        match el.setvar_vaddr with
        | some sv => if sv = "" then [] else [⟨sv, none, some el.vaddr⟩]
        | none => []
      .ok (m, setvars)

/-- Source: `SysIrq` (ids are Python ints; the source range-checks neither
field here). -/
structure SysIrq where
  irq : Nat
  id_ : Int
deriving DecidableEq

/-- Source: `SysMemoryRegion`. -/
structure SysMemoryRegion where
  name : String
  size : Nat
  page_size : Nat
  page_count : Nat
  phys_addr : Option Nat
deriving DecidableEq

/-- Source: `ProtectionDomain`, restricted to the fields that
`SystemDescription.__init__` and `_pd_tree_to_list` consult (the parent
back-reference is dropped: no validation uses it). -/
inductive ProtectionDomain where
  | mk (pd_id : Option Int) (name : String) (irqs : List SysIrq)
       (maps : List SysMap) (child_pds : List ProtectionDomain)

/-- Field accessor. -/
def ProtectionDomain.pd_id : ProtectionDomain → Option Int
  | .mk i _ _ _ _ => i

/-- Field accessor. -/
def ProtectionDomain.name : ProtectionDomain → String
  | .mk _ n _ _ _ => n

/-- Field accessor. -/
def ProtectionDomain.irqs : ProtectionDomain → List SysIrq
  | .mk _ _ irqs _ _ => irqs

/-- Field accessor. -/
def ProtectionDomain.maps : ProtectionDomain → List SysMap
  | .mk _ _ _ m _ => m

/-- Field accessor. -/
def ProtectionDomain.child_pds : ProtectionDomain → List ProtectionDomain
  | .mk _ _ _ _ c => c

/-- The duplicate-`pd_id` scan at the head of `_pd_tree_to_list`. -/
def check_child_ids (seen : List (Option Int)) :
    List ProtectionDomain → Except String Unit
  | [] => .ok ()
  | c :: cs =>
      if c.pd_id ∈ seen then .error "duplicate pd_id"
      else check_child_ids (c.pd_id :: seen) cs

/-- Source: `_pd_tree_to_list` — emit the root with its children emptied,
then each child subtree flattened, in order. -/
def pd_tree_to_list : ProtectionDomain → Except String (List ProtectionDomain)
  | .mk pd_id name irqs maps child_pds =>
      match check_child_ids [] child_pds with
      | .error m => .error m
      | .ok _ =>
          match child_pds.attach.mapM (fun c => pd_tree_to_list c.1) with
          | .error m => .error m
          | .ok rest => .ok (.mk pd_id name irqs maps [] :: rest.flatten)
termination_by pd => sizeOf pd
decreasing_by
  have h1 := List.sizeOf_lt_of_mem c.2
  simp only [ProtectionDomain.mk.sizeOf_spec]
  omega

/-- Source: `_pd_flatten`. -/
def pd_flatten (pds : List ProtectionDomain) : Except String (List ProtectionDomain) :=
  match pds.mapM pd_tree_to_list with
  | .error m => .error m
  | .ok ls => .ok ls.flatten

/-- The `pd_by_name` loop of `SystemDescription.__init__` (duplicate names
rejected while building). -/
def build_by_name_pd (acc : List (String × ProtectionDomain)) :
    List ProtectionDomain → Except String (List (String × ProtectionDomain))
  | [] => .ok acc
  | pd :: pds =>
      if (acc.lookup pd.name).isSome then
        .error ("Duplicate protection domain name '" ++ pd.name ++ "'.")
      else build_by_name_pd (acc ++ [(pd.name, pd)]) pds

/-- The `mr_by_name` loop of `SystemDescription.__init__`. -/
def build_by_name_mr (acc : List (String × SysMemoryRegion)) :
    List SysMemoryRegion → Except String (List (String × SysMemoryRegion))
  | [] => .ok acc
  | mr :: mrs =>
      if (acc.lookup mr.name).isSome then
        .error ("Duplicate memory region name '" ++ mr.name ++ "'.")
      else build_by_name_mr (acc ++ [(mr.name, mr)]) mrs

/-- The channel sanity loop: both end-point PD names must exist. -/
def check_channels (pd_by_name : List (String × ProtectionDomain)) :
    List Channel → Except String Unit
  | [] => .ok ()
  | cc :: ccs =>
      if (pd_by_name.lookup cc.pd_a).isSome then
        if (pd_by_name.lookup cc.pd_b).isSome then check_channels pd_by_name ccs
        else .error ("Invalid pd name '" ++ cc.pd_b ++ "'.")
      else .error ("Invalid pd name '" ++ cc.pd_a ++ "'.")

/-- The duplicate-IRQ scan over one PD's IRQ list. -/
def check_irqs_pd (all_irqs : List Nat) : List SysIrq → Except String (List Nat)
  | [] => .ok all_irqs
  | s :: ss =>
      if s.irq ∈ all_irqs then .error "duplicate irq"
      else check_irqs_pd (s.irq :: all_irqs) ss

/-- The duplicate-IRQ scan over all (flattened) PDs. -/
def check_irqs (all_irqs : List Nat) : List ProtectionDomain → Except String Unit
  | [] => .ok ()
  | pd :: pds =>
      match check_irqs_pd all_irqs pd.irqs with
      | .error m => .error m
      | .ok acc => check_irqs acc pds

/-- `ch_ids = {name: set() for name in pd_by_name}`. -/
def ch_ids_init (pd_by_name : List (String × ProtectionDomain)) :
    List (String × List Int) :=
  pd_by_name.map (fun p => (p.1, []))

/-- Python dict lookup (`KeyError` on a missing key). -/
def ch_ids_lookup (m : List (String × List Int)) (k : String) :
    Except String (List Int) :=
  match m.lookup k with
  | some v => .ok v
  | none => .error ("KeyError: " ++ k)

/-- Add an id to a name's set. -/
def ch_ids_add (m : List (String × List Int)) (k : String) (v : Int) :
    List (String × List Int) :=
  m.map (fun p => if p.1 = k then (p.1, v :: p.2) else p)

/-- The channel-id-namespace scan over one PD's IRQ ids. -/
def check_ch_ids_irqs (m : List (String × List Int)) (name : String) :
    List SysIrq → Except String (List (String × List Int))
  | [] => .ok m
  | s :: ss =>
      match ch_ids_lookup m name with
      | .error msg => .error msg
      | .ok ids =>
          if s.id_ ∈ ids then .error "duplicate channel id"
          else check_ch_ids_irqs (ch_ids_add m name s.id_) name ss

/-- The channel-id-namespace scan over all (flattened) PDs. -/
def check_ch_ids_pds (m : List (String × List Int)) :
    List ProtectionDomain → Except String (List (String × List Int))
  | [] => .ok m
  | pd :: pds =>
      match check_ch_ids_irqs m pd.name pd.irqs with
      | .error msg => .error msg
      | .ok m' => check_ch_ids_pds m' pds

/-- The channel-id-namespace scan over the channels. -/
def check_ch_ids_channels (m : List (String × List Int)) :
    List Channel → Except String (List (String × List Int))
  | [] => .ok m
  | cc :: ccs =>
      match ch_ids_lookup m cc.pd_a with
      | .error msg => .error msg
      | .ok ids_a =>
          if cc.id_a ∈ ids_a then .error "duplicate channel id"
          else
            match ch_ids_lookup m cc.pd_b with
            | .error msg => .error msg
            | .ok ids_b =>
                if cc.id_b ∈ ids_b then .error "duplicate channel id"
                else check_ch_ids_channels
                  (ch_ids_add (ch_ids_add m cc.pd_a cc.id_a) cc.pd_b cc.id_b) ccs

/-- The map-validation scan over one PD's maps (dangling region name;
alignment of the vaddr to the region's page size; a `page_size` of 0 makes
Python raise `ZeroDivisionError`, never reached from parsed input). -/
def check_maps_pd (mr_by_name : List (String × SysMemoryRegion)) :
    List SysMap → Except String Unit
  | [] => .ok ()
  | mp :: mps =>
      match mr_by_name.lookup mp.mr with
      | none => .error ("Invalid memory region name '" ++ mp.mr ++ "'")
      | some mr =>
          if mp.vaddr % mr.page_size ≠ 0 then .error "Invalid vaddr alignment"
          else check_maps_pd mr_by_name mps

/-- The map-validation scan over all (flattened) PDs. -/
def check_maps (mr_by_name : List (String × SysMemoryRegion)) :
    List ProtectionDomain → Except String Unit
  | [] => .ok ()
  | pd :: pds =>
      match check_maps_pd mr_by_name pd.maps with
      | .error m => .error m
      | .ok _ => check_maps mr_by_name pds

/-- The validated system description. -/
structure SystemDescription where
  memory_regions : List SysMemoryRegion
  protection_domains : List ProtectionDomain
  channels : List Channel
  pd_by_name : List (String × ProtectionDomain)
  mr_by_name : List (String × SysMemoryRegion)

/-- Source: `SystemDescription.__init__`, with its checks in source order:
flatten the PD trees, reject an empty or over-63 flattened list, reject
duplicate PD names (over the original top-level list, as the source does)
and duplicate MR names, check channel PD references, duplicate IRQs, the
shared channel-id namespace, and map targets/alignment.  The unused-MR pass
only prints warnings and is omitted. -/
def system_description_init (memory_regions : List SysMemoryRegion)
    (pds : List ProtectionDomain) (channels : List Channel) :
    Except String SystemDescription :=
  match pd_flatten pds with
  | .error m => .error m
  | .ok flat =>
    if flat.length = 0 then .error "At least one protection domain must be defined"
    else if flat.length > 63 then .error "Too many protection domains"
    else
      match build_by_name_pd [] pds with
      | .error m => .error m
      | .ok pd_by_name =>
        match build_by_name_mr [] memory_regions with
        | .error m => .error m
        | .ok mr_by_name =>
          match check_channels pd_by_name channels with
          | .error m => .error m
          | .ok _ =>
            match check_irqs [] flat with
            | .error m => .error m
            | .ok _ =>
              match check_ch_ids_pds (ch_ids_init pd_by_name) flat with
              | .error m => .error m
              | .ok m1 =>
                match check_ch_ids_channels m1 channels with
                | .error m => .error m
                | .ok _ =>
                  match check_maps mr_by_name flat with
                  | .error m => .error m
                  | .ok _ =>
                    .ok ⟨memory_regions, flat, channels, pd_by_name, mr_by_name⟩

/-! ## Helper lemmas -/

lemma round_up_ge (n x : Nat) (hx : 0 < x) : n ≤ round_up n x := by
  unfold round_up
  have h := Nat.mod_lt n hx
  split <;> omega

lemma round_up_mod (n x : Nat) (hx : 0 < x) : round_up n x % x = 0 := by
  unfold round_up
  split
  · omega
  · have hq := (Nat.div_add_mod n x).symm
    have hlt := Nat.mod_lt n hx
    have h2 : n + x - n % x = x * (n / x + 1) := by
      have h3 : x * (n / x + 1) = x * (n / x) + x := by ring
      omega
    rw [h2]
    exact Nat.mul_mod_right x _

/-! ## C10 -/

/-- C10: constructing a system description whose flattened protection-domain
list is empty always fails with the error `At least one protection domain
must be defined`, whatever the memory regions and channels are — i.e. before
any duplicate-name, channel, IRQ or map validation. -/
theorem C10_empty_pds_error (memory_regions : List SysMemoryRegion)
    (pds : List ProtectionDomain) (channels : List Channel)
    (h : pd_flatten pds = Except.ok []) :
    system_description_init memory_regions pds channels =
      Except.error "At least one protection domain must be defined" := by
  unfold system_description_init
  rw [h]
  rfl

/-- Witness for C10 at the empty description. -/
theorem C10_empty_pds_error_witness :
    pd_flatten [] = Except.ok ([] : List ProtectionDomain) ∧
      system_description_init [] [] [] =
        Except.error "At least one protection domain must be defined" :=
  ⟨rfl, C10_empty_pds_error [] [] [] rfl⟩

/-! ## C9 -/

/-- C9: the claim (and the repository's own test `test_write_only_mr`) says a
`map` with permissions `"w"` alone must be rejected at parse time, but the
`map` branch of `xml2pd` performs no permission validation: it accepts the
write-only map.  This theorem evaluates the modelled code at the failing
input. -/
theorem C9_write_only_map_accepted :
    xml2pd_map ⟨"mr1", 0x400000, some "w", none, none⟩ =
      Except.ok (⟨"mr1", 0x400000, "w", true⟩, []) := rfl

/-! ## C8 -/

/-- C8 counterexample: a channel end with id 63 parses successfully, whereas
the claim says every id of 63 or above is rejected. -/
theorem C8_counterexample :
    xml2channel [("a", (63 : Int)), ("b", (0 : Int))] =
      Except.ok ⟨"a", 63, "b", 0⟩ := rfl

/-- C8 amended: a channel end element's id check succeeds exactly when the id
lies in `[0, 64)`; every id of 64 or above, and every negative id, is
rejected with an error. -/
theorem C8_amended_channel_end (e : String × Int) :
    (∃ v, channel_end_check e = Except.ok v) ↔ (0 ≤ e.2 ∧ e.2 < 64) := by
  constructor
  · rintro ⟨v, hv⟩
    unfold channel_end_check at hv
    split_ifs at hv with h1 h2
    all_goals first
      | simpa using hv
      | omega
  · rintro ⟨h1, h2⟩
    refine ⟨e, ?_⟩
    unfold channel_end_check
    rw [if_neg (by omega), if_neg (by omega)]

/-! ## C6 -/

/-- C6: when an iteration of the builder's outer sizing loop fails the
stopping test, the next invocation-table estimate is the maximum of the old
value and the invocation data size rounded up to a page multiple, the next
CNode estimate is the maximum of the old value and the least power of two at
least the cap count, neither estimate decreases, at least one strictly
increases, and the updated estimates pass the stopping test for the same
observations — so the loop reaches a fixed point in a bounded number of
iterations. -/
theorem C6_sizing_loop_step (minimum_page_size number_of_system_caps
    invocation_data_size : Nat) (s : BuildSizes)
    (hpage : 0 < minimum_page_size) (hcaps : 0 < number_of_system_caps)
    (hfail : loop_done number_of_system_caps invocation_data_size s = false) :
    (loop_step minimum_page_size number_of_system_caps invocation_data_size
        s).invocation_table_size =
      max s.invocation_table_size (round_up invocation_data_size minimum_page_size) ∧
    (loop_step minimum_page_size number_of_system_caps invocation_data_size
        s).system_cnode_size =
      max s.system_cnode_size (2 ^ ceil_log2 number_of_system_caps) ∧
    (number_of_system_caps ≤ 2 ^ ceil_log2 number_of_system_caps ∧
      ∀ k, number_of_system_caps ≤ 2 ^ k → ceil_log2 number_of_system_caps ≤ k) ∧
    (invocation_data_size ≤ round_up invocation_data_size minimum_page_size ∧
      round_up invocation_data_size minimum_page_size % minimum_page_size = 0) ∧
    s.invocation_table_size ≤
      (loop_step minimum_page_size number_of_system_caps invocation_data_size
        s).invocation_table_size ∧
    s.system_cnode_size ≤
      (loop_step minimum_page_size number_of_system_caps invocation_data_size
        s).system_cnode_size ∧
    (s.invocation_table_size <
        (loop_step minimum_page_size number_of_system_caps invocation_data_size
          s).invocation_table_size ∨
      s.system_cnode_size <
        (loop_step minimum_page_size number_of_system_caps invocation_data_size
          s).system_cnode_size) ∧
    loop_done number_of_system_caps invocation_data_size
      (loop_step minimum_page_size number_of_system_caps invocation_data_size s) = true := by
  have hle : number_of_system_caps ≤ 2 ^ ceil_log2 number_of_system_caps :=
    Nat.le_pow_clog (by norm_num) _
  have hmin : ∀ k, number_of_system_caps ≤ 2 ^ k →
      ceil_log2 number_of_system_caps ≤ k := by
    intro k hk
    exact (Nat.le_pow_iff_clog_le (by norm_num)).mp hk
  have hru1 := round_up_ge invocation_data_size minimum_page_size hpage
  have hru2 := round_up_mod invocation_data_size minimum_page_size hpage
  have hfail' : s.system_cnode_size < number_of_system_caps ∨
      s.invocation_table_size < invocation_data_size := by
    unfold loop_done at hfail
    simp only [Bool.and_eq_false_iff, decide_eq_false_iff_not] at hfail
    rcases hfail with h | h <;> omega
  have hstep1 : (loop_step minimum_page_size number_of_system_caps invocation_data_size
      s).invocation_table_size =
      max s.invocation_table_size (round_up invocation_data_size minimum_page_size) := rfl
  have hstep2 : (loop_step minimum_page_size number_of_system_caps invocation_data_size
      s).system_cnode_size =
      max s.system_cnode_size (2 ^ ceil_log2 number_of_system_caps) := rfl
  refine ⟨hstep1, hstep2, ⟨hle, hmin⟩, ⟨hru1, hru2⟩, ?_, ?_, ?_, ?_⟩
  · rw [hstep1]; exact Nat.le_max_left _ _
  · rw [hstep2]; exact Nat.le_max_left _ _
  · rw [hstep1, hstep2]
    rcases hfail' with h | h
    · right
      have h2 : number_of_system_caps ≤
          max s.system_cnode_size (2 ^ ceil_log2 number_of_system_caps) :=
        le_trans hle (Nat.le_max_right _ _)
      omega
    · left
      have h2 : invocation_data_size ≤
          max s.invocation_table_size (round_up invocation_data_size minimum_page_size) :=
        le_trans hru1 (Nat.le_max_right _ _)
      omega
  · unfold loop_done
    rw [Bool.and_eq_true, decide_eq_true_eq, decide_eq_true_eq, hstep1, hstep2]
    exact ⟨le_trans hle (Nat.le_max_right _ _), le_trans hru1 (Nat.le_max_right _ _)⟩

/-- Witness for C6: a concrete failing iteration. -/
theorem C6_sizing_loop_step_witness :
    (0 < 0x1000 ∧ 0 < 70 ∧
      loop_done 70 0x1800 ⟨0x1000, 2⟩ = false) ∧
    loop_done 70 0x1800 (loop_step 0x1000 70 0x1800 ⟨0x1000, 2⟩) = true :=
  ⟨⟨by decide, by decide, by decide⟩,
    (C6_sizing_loop_step 0x1000 70 0x1800 ⟨0x1000, 2⟩ (by decide) (by decide)
      (by decide)).2.2.2.2.2.2.2⟩

/-! ## C2 -/

lemma le8_decode (w : Nat) (hw : w < 2 ^ 64) :
    w % 256 + 256 * (w / 256 % 256 + 256 * (w / 256 ^ 2 % 256 + 256 *
      (w / 256 ^ 3 % 256 + 256 * (w / 256 ^ 4 % 256 + 256 * (w / 256 ^ 5 % 256 +
        256 * (w / 256 ^ 6 % 256 + 256 * (w / 256 ^ 7 % 256))))))) = w := by
  have h2 : (2:Nat)^64 = 18446744073709551616 := by norm_num
  rw [h2] at hw
  norm_num
  omega

lemma wordsOf_le8 (w : Nat) (rest : List Nat) (hw : w < 2 ^ 64) :
    wordsOf (le8 w ++ rest) = w :: wordsOf rest := by
  simp only [le8, List.cons_append, List.nil_append, wordsOf]
  rw [le8_decode w hw]
  rfl

lemma wordsOf_nil : wordsOf [] = [] := rfl

lemma pack_words_spec (ws : List Nat) (h : ∀ w ∈ ws, w < 2 ^ 64) :
    ∃ bs, pack_words ws = some bs ∧ bs.length = 8 * ws.length ∧
      ∀ rest, wordsOf (bs ++ rest) = ws ++ wordsOf rest := by
  induction ws with
  | nil => exact ⟨[], rfl, rfl, fun rest => by simp⟩
  | cons w ws ih =>
      obtain ⟨bs, h1, h2, h3⟩ := ih (fun x hx => h x (List.mem_cons_of_mem _ hx))
      have hw : w < 2 ^ 64 := h w (List.mem_cons_self _ _)
      refine ⟨le8 w ++ bs, ?_, ?_, ?_⟩
      · unfold pack_words packQ
        rw [if_pos hw, h1]
      · simp only [List.length_append, le8, List.length_cons, List.length_nil, h2]
        omega
      · intro rest
        rw [List.append_assoc, wordsOf_le8 w _ hw, h3]
        simp

/-- C2: the serialized byte stream of an invocation is the little-endian
64-bit words `tag, service, extra-caps…, args…`, where the tag packs the
label, the (zero) caps field, the extra-cap count and the argument count
into bit fields of widths 50 / 3 / 2 / 7 at offsets 12 / 9 / 7 / 0; when a
repeat with count `n > 1` is attached, `(n - 1) <<< 32` is or-ed into the
tag and one extra word per field (service delta, cap deltas, argument
deltas) is appended. -/
theorem C2_generic_invocation_serialization (inv : GenericInvocation)
    (hl : inv.label < 2 ^ 50)
    (hc : inv.extra_caps.length < 4)
    (ha : inv.args.length < 0x80)
    (hs : inv.service < 2 ^ 64)
    (hcw : ∀ c ∈ inv.extra_caps, c < 2 ^ 64)
    (haw : ∀ a ∈ inv.args, a < 2 ^ 64)
    (hrep : match inv.rep with
      | some r => 1 < r.count ∧ r.count - 1 < 2 ^ 32 ∧ r.service_incr < 2 ^ 64 ∧
          (∀ x ∈ r.cap_incrs, x < 2 ^ 64) ∧ (∀ x ∈ r.arg_incrs, x < 2 ^ 64)
      | none => True) :
    ∃ bs, generic_invocation inv = some bs ∧
      wordsOf bs =
        ((inv.label <<< 12 ||| 0 <<< 9 ||| inv.extra_caps.length <<< 7 |||
            inv.args.length) |||
          (match inv.rep with
           | some r => (r.count - 1) <<< 32
           | none => 0)) ::
        inv.service :: (inv.extra_caps ++ inv.args ++
          (match inv.rep with
           | some r => r.service_incr :: (r.cap_incrs ++ r.arg_incrs)
           | none => [])) ∧
      bs.length = 8 * (2 + inv.extra_caps.length + inv.args.length +
        (match inv.rep with
         | some r => 1 + r.cap_incrs.length + r.arg_incrs.length
         | none => 0)) := by
  obtain ⟨label, service, extra_caps, args, rep⟩ := inv
  simp only at hl hc ha hs hcw haw hrep
  have t1 : label <<< 12 < 2 ^ 64 := by
    rw [Nat.shiftLeft_eq]
    have h50 : (2:Nat) ^ 50 = 1125899906842624 := by norm_num
    have h64 : (2:Nat) ^ 64 = 18446744073709551616 := by norm_num
    rw [h50] at hl; rw [h64]
    omega
  have t2 : 0 <<< 9 < 2 ^ 64 := by rw [Nat.shiftLeft_eq]; positivity
  have t3 : extra_caps.length <<< 7 < 2 ^ 64 := by
    rw [Nat.shiftLeft_eq]
    have h64 : (2:Nat) ^ 64 = 18446744073709551616 := by norm_num
    rw [h64]
    omega
  have t4 : args.length < 2 ^ 64 := by
    have h64 : (2:Nat) ^ 64 = 18446744073709551616 := by norm_num
    rw [h64]
    omega
  have htag0 : (label <<< 12 ||| 0 <<< 9 ||| extra_caps.length <<< 7 |||
      args.length) < 2 ^ 64 :=
    Nat.or_lt_two_pow (Nat.or_lt_two_pow (Nat.or_lt_two_pow t1 t2) t3) t4
  cases rep with
  | none =>
      obtain ⟨bs, hp1, hp2, hp3⟩ := pack_words_spec
        ([label <<< 12 ||| 0 <<< 9 ||| extra_caps.length <<< 7 ||| args.length,
          service] ++ extra_caps ++ args)
        (by
          intro w hw
          simp only [List.mem_append, List.mem_cons, List.mem_singleton,
            List.not_mem_nil, or_false] at hw
          rcases hw with ((rfl | rfl) | hw) | hw
          · exact htag0
          · exact hs
          · exact hcw w hw
          · exact haw w hw)
      refine ⟨bs, ?_, ?_, ?_⟩
      · unfold generic_invocation message_info_new
        rw [if_pos ⟨hl, by norm_num, hc, ha⟩]
        simp only
        rw [hp1]
        simp
      · have := hp3 []
        rw [List.append_nil] at this
        rw [this, wordsOf_nil, List.append_nil]
        simp [Nat.or_zero, List.append_assoc]
      · rw [hp2]
        simp only [List.length_append, List.length_cons, List.length_nil]
        omega
  | some r =>
      obtain ⟨hr1, hr2, hr3, hr4, hr5⟩ := hrep
      have t5 : (r.count - 1) <<< 32 < 2 ^ 64 := by
        rw [Nat.shiftLeft_eq]
        have h32 : (2:Nat) ^ 32 = 4294967296 := by norm_num
        have h64 : (2:Nat) ^ 64 = 18446744073709551616 := by norm_num
        rw [h32] at hr2; rw [h64]
        omega
      have htag : ((label <<< 12 ||| 0 <<< 9 ||| extra_caps.length <<< 7 |||
          args.length) ||| (r.count - 1) <<< 32) < 2 ^ 64 :=
        Nat.or_lt_two_pow htag0 t5
      obtain ⟨bs1, hp1, hp2, hp3⟩ := pack_words_spec
        ([(label <<< 12 ||| 0 <<< 9 ||| extra_caps.length <<< 7 ||| args.length) |||
            (r.count - 1) <<< 32, service] ++ extra_caps ++ args)
        (by
          intro w hw
          simp only [List.mem_append, List.mem_cons, List.mem_singleton,
            List.not_mem_nil, or_false] at hw
          rcases hw with ((rfl | rfl) | hw) | hw
          · exact htag
          · exact hs
          · exact hcw w hw
          · exact haw w hw)
      obtain ⟨bs2, hq1, hq2, hq3⟩ := pack_words_spec
        ([r.service_incr] ++ r.cap_incrs ++ r.arg_incrs)
        (by
          intro w hw
          simp only [List.mem_append, List.mem_cons, List.not_mem_nil,
            or_false] at hw
          rcases hw with (rfl | hw) | hw
          · exact hr3
          · exact hr4 w hw
          · exact hr5 w hw)
      refine ⟨bs1 ++ bs2, ?_, ?_, ?_⟩
      · unfold generic_invocation message_info_new
        rw [if_pos ⟨hl, by norm_num, hc, ha⟩]
        simp only
        rw [hp1, hq1]
      · have h2 := hq3 []
        rw [List.append_nil, wordsOf_nil, List.append_nil] at h2
        rw [hp3 bs2, h2]
        simp [List.append_assoc]
      · rw [List.length_append, hp2, hq2]
        simp only [List.length_append, List.length_cons, List.length_nil]
        omega

/-- Witness for C2: a concrete invocation with one extra cap, two arguments
and a repeat of count 3 serializes successfully. -/
theorem C2_generic_invocation_serialization_witness :
    ∃ bs, generic_invocation ⟨12, 5, [6], [7, 8], some ⟨3, 4096, [0], [8, 0]⟩⟩ =
      some bs := by
  obtain ⟨bs, h1, h2, h3⟩ := C2_generic_invocation_serialization
    ⟨12, 5, [6], [7, 8], some ⟨3, 4096, [0], [8, 0]⟩⟩
    (by decide) (by decide) (by decide) (by decide) (by decide) (by decide)
    (by decide)
  exact ⟨bs, h1⟩

/-! ## C4 -/

lemma alloc_loop_none (size count idx : Nat) (us : List UntypedAllocator)
    (h : ∀ u ∈ us, ut_fits size count u = false) :
    alloc_loop size count idx us = none := by
  induction us with
  | nil => rfl
  | cons u us ih =>
      have hu := h u (List.mem_cons_self _ _)
      unfold alloc_loop
      rw [if_neg (by simpa [ut_fits] using hu)]
      rw [ih (fun x hx => h x (List.mem_cons_of_mem _ hx))]
      rfl

lemma alloc_loop_first (size count idx : Nat) (us : List UntypedAllocator)
    (i : Nat) (hi : i < us.length)
    (hbefore : ∀ j, (hj : j < i) → ut_fits size count (us.get ⟨j, lt_trans hj hi⟩) = false)
    (hfit : ut_fits size count (us.get ⟨i, hi⟩) = true) :
    alloc_loop size count idx us =
      some (⟨(us.get ⟨i, hi⟩).untyped_object.cap,
             round_up ((us.get ⟨i, hi⟩).base + (us.get ⟨i, hi⟩).allocation_point) size,
             idx⟩,
            us.set i
              { us.get ⟨i, hi⟩ with
                  allocation_point :=
                    (round_up ((us.get ⟨i, hi⟩).base +
                        (us.get ⟨i, hi⟩).allocation_point) size -
                      (us.get ⟨i, hi⟩).base) + count * size,
                  allocations := (us.get ⟨i, hi⟩).allocations ++
                    [⟨(us.get ⟨i, hi⟩).untyped_object.cap,
                      round_up ((us.get ⟨i, hi⟩).base +
                        (us.get ⟨i, hi⟩).allocation_point) size,
                      idx⟩] }) := by
  induction us generalizing i with
  | nil => exact absurd hi (by simp)
  | cons u us ih =>
      cases i with
      | zero =>
          simp only [List.get] at hfit ⊢
          unfold alloc_loop
          rw [if_pos (by simpa [ut_fits] using hfit)]
          rfl
      | succ i =>
          have h0 : ut_fits size count u = false := hbefore 0 (Nat.succ_pos i)
          unfold alloc_loop
          rw [if_neg (by simpa [ut_fits] using h0)]
          have hi' : i < us.length := Nat.lt_of_succ_lt_succ hi
          rw [ih i hi' (fun j hj => hbefore (j + 1) (Nat.succ_lt_succ hj)) hfit]
          rfl

/-- C4: under `alloc(size, count)` with `size` a power of two, the allocation
is taken from the first untyped for which the rounded watermark leaves room:
the returned physical address is the rounded start, the returned cap is that
untyped's cap, the returned allocation index is the previous index plus one
(and becomes the new index), and that untyped's watermark advances to
`count * size` past the rounded start; if no untyped has room the call fails;
and the allocator built from kernel boot info holds exactly the non-device
untypeds. -/
theorem C4_kernel_object_allocator_alloc (k : KernelObjectAllocator)
    (size count : Nat) (hsz : 0 < size) (hpow : is_power_of_two size = true) :
    ((∀ u ∈ k.untyped, ut_fits size count u = false) →
        k.alloc size count = none) ∧
    (∀ i, (hi : i < k.untyped.length) →
      (∀ j, (hj : j < i) →
        ut_fits size count (k.untyped.get ⟨j, lt_trans hj hi⟩) = false) →
      ut_fits size count (k.untyped.get ⟨i, hi⟩) = true →
      ∃ u start, k.untyped.get ⟨i, hi⟩ = u ∧
        start = round_up (u.base + u.allocation_point) size ∧
        k.alloc size count =
          some (⟨u.untyped_object.cap, start, k.allocation_idx + 1⟩,
                ⟨k.allocation_idx + 1,
                 k.untyped.set i
                   { u with
                       allocation_point := (start - u.base) + count * size,
                       allocations := u.allocations ++
                         [⟨u.untyped_object.cap, start, k.allocation_idx + 1⟩] }⟩) ∧
        u.base + ((start - u.base) + count * size) = start + count * size) ∧
    (∀ boot : List UntypedObject, (KernelObjectAllocator.init boot).untyped =
      (boot.filter (fun ut => !ut.is_device)).map (fun ut => ⟨ut, 0, []⟩)) := by
  refine ⟨?_, ?_, fun boot => rfl⟩
  · intro h
    unfold KernelObjectAllocator.alloc
    rw [if_pos ⟨hsz, hpow⟩, alloc_loop_none size count (k.allocation_idx + 1) k.untyped h]
  · intro i hi hbefore hfit
    refine ⟨k.untyped.get ⟨i, hi⟩,
      round_up ((k.untyped.get ⟨i, hi⟩).base +
        (k.untyped.get ⟨i, hi⟩).allocation_point) size, rfl, rfl, ?_, ?_⟩
    · unfold KernelObjectAllocator.alloc
      rw [if_pos ⟨hsz, hpow⟩,
        alloc_loop_first size count (k.allocation_idx + 1) k.untyped i hi hbefore hfit]
    · have hle : (k.untyped.get ⟨i, hi⟩).base ≤
          round_up ((k.untyped.get ⟨i, hi⟩).base +
            (k.untyped.get ⟨i, hi⟩).allocation_point) size := by
        have h1 := round_up_ge ((k.untyped.get ⟨i, hi⟩).base +
          (k.untyped.get ⟨i, hi⟩).allocation_point) size hsz
        omega
      omega

/-- Witness for C4: one empty non-device untyped of 4 KiB at 0x1000; a 4 KiB
allocation succeeds at its base. -/
theorem C4_kernel_object_allocator_alloc_witness :
    ∃ p, KernelObjectAllocator.alloc ⟨0, [⟨⟨1, ⟨4096, 8192⟩, false⟩, 0, []⟩]⟩
      4096 1 = some p := by
  obtain ⟨u, start, hu, hstart, halloc, hadv⟩ :=
    (C4_kernel_object_allocator_alloc ⟨0, [⟨⟨1, ⟨4096, 8192⟩, false⟩, 0, []⟩]⟩
      4096 1 (by decide) (by decide)).2.1 0 (by decide)
      (fun j hj => absurd hj (by omega)) (by decide)
  exact ⟨_, halloc⟩

/-! ## C3 -/

lemma padding_sizes_sum : ∀ pr wm, (padding_sizes_loop wm pr).sum = pr := by
  intro pr
  induction pr using Nat.strong_induction_on with
  | _ pr ih =>
      intro wm
      by_cases h : pr = 0
      · subst h
        rw [padding_sizes_loop]
        simp
      · rw [padding_sizes_loop, dif_neg h]
        simp only [List.sum_cons]
        have hpad1 : 1 ≤ 1 <<< min (lsb wm) (msb pr) := by
          rw [Nat.one_shiftLeft]; exact Nat.one_le_two_pow
        have hpadle : 1 <<< min (lsb wm) (msb pr) ≤ pr := by
          rw [Nat.one_shiftLeft]
          exact le_trans (Nat.pow_le_pow_right (by omega) (min_le_right _ _))
            (two_pow_msb_le pr (by omega))
        rw [ih (pr - 1 <<< min (lsb wm) (msb pr)) (by omega)]
        omega

/-- C3: called with `phys_addr` at least the previous last fixed address and
strictly above the watermark of the device untyped containing it,
`allocate_fixed_objects` emits one `UntypedRetype` per padding block — sized
by the `1 << min(lsb(watermark), msb(remaining))` recurrence, the blocks
summing exactly to the gap so the watermark reaches `phys_addr` — then
exactly one retype for the requested fixed object, and afterwards the
untyped's watermark and the recorded last fixed address both equal
`phys_addr + alloc_size`. -/
theorem C3_allocate_fixed_objects (s : InitSystem)
    (phys_address object_type count alloc_size i : Nat)
    (ut : FixedUntypedAlloc) (names : List String) (name0 : String)
    (rest : List String)
    (hnames : names = name0 :: rest)
    (hlast : s.last_fixed_address ≤ phys_address)
    (hcount : count = names.length)
    (hsize : fixed_object_sizes object_type = some alloc_size)
    (hidx : s.device_untyped.findIdx (fun u => u.contains phys_address) = i)
    (hut : s.device_untyped[i]? = some ut)
    (hwm : ut.watermark < phys_address)
    (hwm0 : 0 < ut.watermark) :
    (padding_sizes_loop ut.watermark (phys_address - ut.watermark)).sum =
        phys_address - ut.watermark ∧
    allocate_fixed_objects s phys_address object_type count names =
      some ({ s with
                cap_slot := s.cap_slot +
                  (padding_sizes_loop ut.watermark
                    (phys_address - ut.watermark)).length + 1,
                last_fixed_address := phys_address + alloc_size,
                device_untyped := s.device_untyped.set i
                  { ut with watermark := phys_address + alloc_size },
                invocations := s.invocations ++
                  (padding_sizes_loop ut.watermark
                    (phys_address - ut.watermark)).enum.map (fun p =>
                      Sel4UntypedRetype.mk ut.ut.cap sel4_object_untyped
                        (Nat.log2 p.2) s.cnode_cap 1 1 (s.cap_slot + p.1) 1) ++
                  [Sel4UntypedRetype.mk ut.ut.cap object_type 0 s.cnode_cap 1 1
                    (s.cap_slot +
                      (padding_sizes_loop ut.watermark
                        (phys_address - ut.watermark)).length) 1],
                cap_address_names := s.cap_address_names ++
                  [(s.cnode_mask ||| (s.cap_slot +
                      (padding_sizes_loop ut.watermark
                        (phys_address - ut.watermark)).length), name0)],
                objects := s.objects ++
                  [⟨object_type,
                    s.cap_slot + (padding_sizes_loop ut.watermark
                      (phys_address - ut.watermark)).length,
                    s.cnode_mask ||| (s.cap_slot +
                      (padding_sizes_loop ut.watermark
                        (phys_address - ut.watermark)).length),
                    phys_address, name0⟩] },
            [⟨object_type,
              s.cap_slot + (padding_sizes_loop ut.watermark
                (phys_address - ut.watermark)).length,
              s.cnode_mask ||| (s.cap_slot +
                (padding_sizes_loop ut.watermark
                  (phys_address - ut.watermark)).length),
              phys_address, name0⟩]) := by
  refine ⟨padding_sizes_sum _ _, ?_⟩
  subst hnames
  unfold allocate_fixed_objects
  simp only [hsize, hidx, hut, if_pos hlast, if_pos hcount,
    if_neg (show ¬ phys_address < ut.watermark by omega)]

/-- Witness for C3, following the spec's scenario S5: a fixed object at
0x1002000 inside a device untyped based at 0x1000000 with the watermark
still at the base; one 0x2000-byte padding untyped is created, then the
object retype. -/
theorem C3_allocate_fixed_objects_witness :
    (padding_sizes_loop 0x1000000 (0x1002000 - 0x1000000)).sum =
        0x1002000 - 0x1000000 ∧
      ∃ r, allocate_fixed_objects
        ⟨5, 2 ^ 63, 100, 0, [⟨⟨9, ⟨0x1000000, 0x2000000⟩, true⟩, 0x1000000⟩], [], [], []⟩
        0x1002000 7 1 ["page"] = some r := by
  have h := C3_allocate_fixed_objects
    ⟨5, 2 ^ 63, 100, 0, [⟨⟨9, ⟨0x1000000, 0x2000000⟩, true⟩, 0x1000000⟩], [], [], []⟩
    0x1002000 7 1 4096 0 ⟨⟨9, ⟨0x1000000, 0x2000000⟩, true⟩, 0x1000000⟩
    ["page"] "page" [] rfl (by decide) (by decide) (by decide) (by decide)
    (by decide) (by decide) (by decide)
  exact ⟨h.1, _, h.2⟩

/-! ## C7 -/

lemma write_bytes_getElem? (d : List Nat) (off : Nat) (data : List Nat)
    (h : off + data.length ≤ d.length) (k : Nat) :
    (write_bytes d off data)[k]? =
      if k < off then d[k]?
      else if k < off + data.length then data[k - off]?
      else d[k]? := by
  simp only [write_bytes, List.append_assoc, List.getElem?_append,
    List.getElem?_take, List.getElem?_drop, List.length_take]
  split_ifs <;> first
    | rfl
    | omega
    | (congr 1; omega)

lemma write_bytes_length (d : List Nat) (off : Nat) (data : List Nat)
    (h : off + data.length ≤ d.length) :
    (write_bytes d off data).length = d.length := by
  unfold write_bytes
  simp only [List.length_append, List.length_take, List.length_drop]
  omega

lemma slice_write_bytes_self (d : List Nat) (off : Nat) (data : List Nat)
    (h : off + data.length ≤ d.length) :
    ((write_bytes d off data).drop off).take data.length = data := by
  apply List.ext_getElem?
  intro i
  simp only [List.getElem?_take, List.getElem?_drop]
  split_ifs with h1
  · rw [write_bytes_getElem? d off data h, if_neg (by omega), if_pos (by omega)]
    congr 1
    omega
  · exact (List.getElem?_eq_none (by omega)).symm

lemma slice_write_bytes_disjoint (d : List Nat) (off : Nat) (data : List Nat)
    (off2 len2 : Nat) (h : off + data.length ≤ d.length)
    (hdisj : off2 + len2 ≤ off ∨ off + data.length ≤ off2) :
    ((write_bytes d off data).drop off2).take len2 = (d.drop off2).take len2 := by
  apply List.ext_getElem?
  intro i
  simp only [List.getElem?_take, List.getElem?_drop]
  split_ifs with h1
  · rw [write_bytes_getElem? d off data h]
    rcases hdisj with hd | hd
    · rw [if_pos (by omega)]
    · by_cases hk : off2 + i < off
      · rw [if_pos hk]
      · rw [if_neg hk, if_neg (by omega)]
  · rfl

lemma pack_16s_length (b : List Nat) : (pack_16s b).length = 16 := by
  unfold pack_16s
  simp only [List.length_append, List.length_take, List.length_replicate]
  omega

lemma find_symbol_mk (segs segs2 : List ElfSegment) (syms : List ElfSymbol)
    (nm : String) :
    ElfFile.find_symbol ⟨segs, syms⟩ nm = ElfFile.find_symbol ⟨segs2, syms⟩ nm := rfl

/-- C7 counterexample: an ELF holding the symbols `sel4cp_name`,
`microkit_name` and `passive`, all zero-initialised.  After the builder's
per-PD patch the bytes at `microkit_name` are still zero while the name was
written at `sel4cp_name` — the claim, which says the name is written into
`microkit_name`, fails at this input. -/
theorem C7_counterexample :
    (patch_pd_symbols
        ⟨[⟨0, List.replicate 33 0⟩],
         [⟨"sel4cp_name", 0, 16⟩, ⟨"microkit_name", 16, 16⟩, ⟨"passive", 32, 1⟩]⟩
        [104, 105] true).map
        (fun e => (e.get_data 16 16, e.get_data 0 16, e.get_data 32 1)) =
      Except.ok (Except.ok (List.replicate 16 0),
        Except.ok (pack_16s [104, 105]), Except.ok [1]) ∧
    pack_16s [104, 105] ≠ List.replicate 16 0 := by
  refine ⟨rfl, ?_⟩
  decide

/-- C7 amended: for each protection domain the builder writes the PD's name,
packed into 16 bytes, into the symbol named `sel4cp_name` of the PD's
program image, and writes the PD's passive flag into the symbol named
`passive` (stated for a program image with one loadable segment covering
both symbols, the symbol regions disjoint). -/
theorem C7_amended_patch_pd_symbols (seg : ElfSegment) (syms : List ElfSymbol)
    (pd_name_utf8 : List Nat) (passive : Bool) (va1 sz1 va2 sz2 : Nat)
    (h1 : ElfFile.find_symbol ⟨[seg], syms⟩ "sel4cp_name" = .ok (va1, sz1))
    (h2 : ElfFile.find_symbol ⟨[seg], syms⟩ "passive" = .ok (va2, sz2))
    (h16 : 16 ≤ sz1) (hp1 : 1 ≤ sz2)
    (hcov1 : seg.virt_addr ≤ va1 ∧ va1 + sz1 ≤ seg.virt_addr + seg.data.length)
    (hcov2 : seg.virt_addr ≤ va2 ∧ va2 + sz2 ≤ seg.virt_addr + seg.data.length)
    (hdisj : va2 + 1 ≤ va1 ∨ va1 + 16 ≤ va2) :
    ∃ elf', patch_pd_symbols ⟨[seg], syms⟩ pd_name_utf8 passive = .ok elf' ∧
      elf'.get_data va1 16 = .ok (pack_16s pd_name_utf8) ∧
      elf'.get_data va2 1 = .ok (pack_bool passive) := by
  obtain ⟨hc1a, hc1b⟩ := hcov1
  obtain ⟨hc2a, hc2b⟩ := hcov2
  have hm1 : seg_matches va1 sz1 seg = true := by
    simp only [seg_matches, Bool.and_eq_true, decide_eq_true_eq]
    omega
  have hlen1 : (va1 - seg.virt_addr) + (pack_16s pd_name_utf8).length ≤
      seg.data.length := by
    rw [pack_16s_length]
    omega
  have hseg1 : (write_bytes seg.data (va1 - seg.virt_addr)
      (pack_16s pd_name_utf8)).length = seg.data.length :=
    write_bytes_length _ _ _ hlen1
  have hm2 : seg_matches va2 sz2
      ⟨seg.virt_addr,
        write_bytes seg.data (va1 - seg.virt_addr) (pack_16s pd_name_utf8)⟩ = true := by
    simp only [seg_matches, Bool.and_eq_true, decide_eq_true_eq, hseg1]
    omega
  have hlen2 : (va2 - seg.virt_addr) + (pack_bool passive).length ≤
      (write_bytes seg.data (va1 - seg.virt_addr) (pack_16s pd_name_utf8)).length := by
    rw [hseg1]
    simp only [pack_bool, List.length_cons, List.length_nil]
    omega
  have hguard1 : ¬(({ segments := [seg], symbols := syms } :
      ElfFile).segments.any (seg_matches va1 sz1) = true ∧
        sz1 < (pack_16s pd_name_utf8).length) := by
    rintro ⟨-, hlt⟩
    rw [pack_16s_length] at hlt
    omega
  unfold patch_pd_symbols ElfFile.write_symbol
  rw [h1]
  simp only []
  rw [if_neg hguard1]
  simp only [List.map_cons, List.map_nil, hm1, if_true]
  rw [find_symbol_mk _ [seg], h2]
  simp only []
  rw [if_neg (by
    rintro ⟨-, hlt⟩
    simp only [pack_bool, List.length_cons, List.length_nil] at hlt
    omega)]
  simp only [List.map_cons, List.map_nil, hm2, if_true]
  refine ⟨_, rfl, ?_, ?_⟩
  · unfold ElfFile.get_data get_data_loop
    rw [if_pos (by
      constructor
      · exact hc1a
      · simp only [write_bytes_length _ _ _ hlen2, hseg1]
        omega)]
    simp only
    rw [slice_write_bytes_disjoint _ _ _ _ _ hlen2 (by
      simp only [pack_bool, List.length_cons, List.length_nil]
      omega)]
    have hs := slice_write_bytes_self seg.data (va1 - seg.virt_addr)
      (pack_16s pd_name_utf8) hlen1
    rw [pack_16s_length] at hs
    rw [hs]
  · unfold ElfFile.get_data get_data_loop
    rw [if_pos (by
      constructor
      · exact hc2a
      · simp only [write_bytes_length _ _ _ hlen2, hseg1]
        omega)]
    simp only
    have hs := slice_write_bytes_self
      (write_bytes seg.data (va1 - seg.virt_addr) (pack_16s pd_name_utf8))
      (va2 - seg.virt_addr) (pack_bool passive) hlen2
    exact congrArg Except.ok hs

/-- Witness for C7's amended claim at a concrete single-segment image. -/
theorem C7_amended_patch_pd_symbols_witness :
    ∃ elf', patch_pd_symbols
        ⟨[⟨0, List.replicate 33 0⟩],
         [⟨"sel4cp_name", 0, 16⟩, ⟨"microkit_name", 16, 16⟩, ⟨"passive", 32, 1⟩]⟩
        [104, 105] false = .ok elf' ∧
      elf'.get_data 0 16 = .ok (pack_16s [104, 105]) ∧
      elf'.get_data 32 1 = .ok (pack_bool false) :=
  C7_amended_patch_pd_symbols ⟨0, List.replicate 33 0⟩
    [⟨"sel4cp_name", 0, 16⟩, ⟨"microkit_name", 16, 16⟩, ⟨"passive", 32, 1⟩]
    [104, 105] false 0 16 32 1 rfl rfl (by decide) (by decide)
    (by decide) (by decide) (by decide)

/-! ## C1 -/

lemma land_pred_even (y : Nat) (hy : 0 < y) :
    (2 * y) &&& (2 * y - 1) = 2 * (y &&& (y - 1)) := by
  apply Nat.eq_of_testBit_eq
  intro i
  cases i with
  | zero =>
      have h1 : 2 * y % 2 = 0 := by omega
      have h2 : 2 * (y &&& (y - 1)) % 2 = 0 := by omega
      simp [Nat.testBit_and, Nat.testBit_zero, h1, h2]
  | succ i =>
      rw [Nat.testBit_and]
      simp only [Nat.testBit_add_one]
      have h3 : 2 * y / 2 = y := by omega
      have h4 : (2 * y - 1) / 2 = y - 1 := by omega
      have h5 : 2 * (y &&& (y - 1)) / 2 = y &&& (y - 1) := by omega
      rw [h3, h4, h5, Nat.testBit_and]

lemma lowBit_pow (x : Nat) (hx : 0 < x) : ∃ k, lowBit x = 2 ^ k ∧ 2 ^ k ∣ x := by
  induction x using Nat.strong_induction_on with
  | _ x ih =>
    rcases Nat.even_or_odd x with he | ho
    · obtain ⟨y, hy⟩ := he
      have hy2 : x = 2 * y := by omega
      have hypos : 0 < y := by omega
      obtain ⟨k, hk1, hk2⟩ := ih y (by omega) hypos
      refine ⟨k + 1, ?_, ?_⟩
      · unfold lowBit at *
        rw [hy2, land_pred_even y hypos]
        omega
      · rw [hy2, pow_succ, Nat.mul_comm (2 ^ k) 2]
        exact Nat.mul_dvd_mul_left 2 hk2
    · have hodd : x % 2 = 1 := Nat.odd_iff.mp ho
      have hand : x &&& (x - 1) = x - 1 := by
        apply Nat.eq_of_testBit_eq
        intro i
        cases i with
        | zero =>
            have h1 : (x - 1) % 2 = 0 := by omega
            simp [Nat.testBit_and, Nat.testBit_zero, hodd, h1]
        | succ i =>
            rw [Nat.testBit_and]
            simp only [Nat.testBit_add_one]
            have h2 : x / 2 = (x - 1) / 2 := by omega
            rw [h2, Bool.and_self]
      exact ⟨0, by unfold lowBit; omega, Nat.one_dvd x⟩

lemma msb_two_pow (k : Nat) : msb (2 ^ k) = k := by
  unfold msb bit_length
  rw [if_neg (Nat.pos_pow_of_pos k (by omega)).ne', Nat.log2_two_pow]
  omega

lemma two_pow_lsb_dvd (x : Nat) (hx : 0 < x) : 2 ^ lsb x ∣ x := by
  obtain ⟨k, hk1, hk2⟩ := lowBit_pow x hx
  unfold lsb
  rw [hk1, msb_two_pow]
  exact hk2

lemma machine_sub_of_le (b e : Nat) (hbe : b ≤ e) (he : e < 2 ^ 64) :
    machine_sub e b = e - b := by
  unfold machine_sub
  have h : ((2:Int) ^ 64) = 18446744073709551616 := by norm_num
  have h2 : (2:Nat) ^ 64 = 18446744073709551616 := by norm_num
  rw [h]; rw [h2] at he
  omega

lemma machine_add_of_lt (b sz : Nat) (h : b + sz < 2 ^ 64) :
    machine_add b sz = b + sz := by
  unfold machine_add machine_wrap
  exact Nat.mod_eq_of_lt h

lemma paddr_to_kernel_vaddr_zero (p : Nat) (hp : p < 2 ^ 64) :
    paddr_to_kernel_vaddr 0 p = p := by
  unfold paddr_to_kernel_vaddr machine_add machine_wrap
  rw [Nat.add_zero]
  exact Nat.mod_eq_of_lt hp

lemma kernel_vaddr_to_paddr_zero (v : Nat) (hv : v < 2 ^ 64) :
    kernel_vaddr_to_paddr 0 v = v := by
  unfold kernel_vaddr_to_paddr machine_sub
  have h : ((2:Int) ^ 64) = 18446744073709551616 := by norm_num
  have h2 : (2:Nat) ^ 64 = 18446744073709551616 := by norm_num
  rw [h]; rw [h2] at hv
  omega

lemma apot_bits_le (max_bits b s : Nat) : apot_bits max_bits b s ≤ max_bits := by
  unfold apot_bits
  split_ifs <;> omega

lemma apot_bits_le_msb (max_bits b s : Nat) : apot_bits max_bits b s ≤ msb s := by
  unfold apot_bits
  split_ifs <;> omega

lemma apot_bits_le_lsb (max_bits b s : Nat) (hb : b ≠ 0) :
    apot_bits max_bits b s ≤ lsb b := by
  unfold apot_bits
  rw [if_neg hb]
  split_ifs <;> omega

lemma apot_sz_le (max_bits b s : Nat) (hs : 0 < s) :
    1 <<< apot_bits max_bits b s ≤ s := by
  rw [Nat.one_shiftLeft]
  exact le_trans (Nat.pow_le_pow_right (by omega) (apot_bits_le_msb max_bits b s))
    (two_pow_msb_le s hs)

lemma apot_loop_congr (k m b b' e e' : Nat) (hbb : b = b') (hee : e = e')
    (hb : b < 2 ^ 64) (hb' : b' < 2 ^ 64) (he : e < 2 ^ 64) (he' : e' < 2 ^ 64) :
    apot_loop k m b e hb he = apot_loop k m b' e' hb' he' := by
  subst hbb; subst hee; rfl

lemma apot_loop_eq_nil (k m b e : Nat) (hb : b < 2 ^ 64) (he : e < 2 ^ 64)
    (h : b = e) : apot_loop k m b e hb he = [] := by
  rw [apot_loop, dif_pos h]

lemma apot_loop_eq_cons (k m b e : Nat) (hb : b < 2 ^ 64) (he : e < 2 ^ 64)
    (h : ¬ b = e) :
    apot_loop k m b e hb he =
      MemoryRegion.mk (kernel_vaddr_to_paddr k b)
          (kernel_vaddr_to_paddr k (b + 1 <<< apot_bits m b (machine_sub e b))) ::
        apot_loop k m (machine_add b (1 <<< apot_bits m b (machine_sub e b))) e
          (machine_wrap_lt _) he := by
  rw [apot_loop, dif_neg h]
  rfl

lemma apot_loop_zero_spec (max_bits : Nat) : ∀ gap base e
    (hb : base < 2 ^ 64) (he : e < 2 ^ 64), e - base = gap → base ≤ e →
    coversChain base e (apot_loop 0 max_bits base e hb he) ∧
    ∀ m ∈ apot_loop 0 max_bits base e hb he,
      ∃ k, k ≤ max_bits ∧ m.end_ - m.base = 2 ^ k ∧ (m.base ≠ 0 → 2 ^ k ∣ m.base) := by
  intro gap
  induction gap using Nat.strong_induction_on with
  | _ gap ih =>
    intro base e hb he hgap hle
    by_cases h : base = e
    · rw [apot_loop_eq_nil 0 max_bits base e hb he h]
      exact ⟨h, by simp⟩
    · have hlt : base < e := lt_of_le_of_ne hle h
      rw [apot_loop_eq_cons 0 max_bits base e hb he h]
      rw [machine_sub_of_le base e hle he]
      have hsz1 : 1 ≤ 1 <<< apot_bits max_bits base (e - base) := by
        rw [Nat.one_shiftLeft]; exact Nat.one_le_two_pow
      have hszle : 1 <<< apot_bits max_bits base (e - base) ≤ e - base :=
        apot_sz_le max_bits base (e - base) (by omega)
      have hbs : base + 1 <<< apot_bits max_bits base (e - base) ≤ e := by omega
      have hbs64 : base + 1 <<< apot_bits max_bits base (e - base) < 2 ^ 64 :=
        lt_of_le_of_lt hbs he
      rw [kernel_vaddr_to_paddr_zero base hb,
        kernel_vaddr_to_paddr_zero _ hbs64,
        apot_loop_congr 0 max_bits _ (base + 1 <<< apot_bits max_bits base (e - base))
          e e (machine_add_of_lt _ _ hbs64) rfl (machine_wrap_lt _) hbs64 he he]
      obtain ⟨ihc, ihm⟩ := ih (e - (base + 1 <<< apot_bits max_bits base (e - base)))
        (by omega) (base + 1 <<< apot_bits max_bits base (e - base)) e hbs64 he rfl
        (by omega)
      refine ⟨⟨rfl,
        by show base < base + 1 <<< apot_bits max_bits base (e - base); omega,
        ihc⟩, ?_⟩
      intro m hm
      rcases List.mem_cons.mp hm with rfl | hm
      · refine ⟨apot_bits max_bits base (e - base), apot_bits_le _ _ _, ?_, ?_⟩
        · simp only [Nat.one_shiftLeft]
          omega
        · intro hb0
          simp only at hb0 ⊢
          have hd := two_pow_lsb_dvd base (by omega)
          exact dvd_trans (pow_dvd_pow 2 (apot_bits_le_lsb max_bits base (e - base) hb0)) hd
      · exact ihm m hm

/-- C1: for a region with `base ≤ end < 2^64` and `max_bits ≥ 12`, the list
returned by `aligned_power_of_two_regions` (at kernel virtual base 0, the
identity address translation) is ordered and concatenates exactly to
`[base, end)`; every region's size is a power of two no greater than
`1 <<< max_bits`; and every region's base is a multiple of its size unless
that base is 0. -/
theorem C1_aligned_power_of_two_regions (r : MemoryRegion) (max_bits : Nat)
    (h1 : r.base ≤ r.end_) (h2 : r.end_ < 2 ^ 64) (h3 : 12 ≤ max_bits) :
    coversChain r.base r.end_ (r.aligned_power_of_two_regions 0 max_bits) ∧
    ∀ m ∈ r.aligned_power_of_two_regions 0 max_bits,
      (∃ k, k ≤ max_bits ∧ m.end_ - m.base = 2 ^ k) ∧
      (m.base ≠ 0 → (m.end_ - m.base) ∣ m.base) := by
  have hb64 : r.base < 2 ^ 64 := lt_of_le_of_lt h1 h2
  have heq : r.aligned_power_of_two_regions 0 max_bits =
      apot_loop 0 max_bits r.base r.end_ hb64 h2 := by
    unfold MemoryRegion.aligned_power_of_two_regions
    exact apot_loop_congr 0 max_bits _ _ _ _
      (paddr_to_kernel_vaddr_zero r.base hb64)
      (paddr_to_kernel_vaddr_zero r.end_ h2)
      (machine_wrap_lt _) hb64 (machine_wrap_lt _) h2
  rw [heq]
  obtain ⟨hc, hm⟩ := apot_loop_zero_spec max_bits (r.end_ - r.base) r.base r.end_
    hb64 h2 rfl h1
  refine ⟨hc, ?_⟩
  intro m hmem
  obtain ⟨k, hk1, hk2, hk3⟩ := hm m hmem
  exact ⟨⟨k, hk1, hk2⟩, fun h0 => hk2 ▸ hk3 h0⟩

/-- Witness for C1 on the region `[0x1000, 0x3000)` with `max_bits = 12`. -/
theorem C1_aligned_power_of_two_regions_witness :
    ((0x1000 : Nat) ≤ 0x3000 ∧ (0x3000 : Nat) < 2 ^ 64 ∧ (12 : Nat) ≤ 12) ∧
      coversChain 0x1000 0x3000
        ((MemoryRegion.mk 0x1000 0x3000).aligned_power_of_two_regions 0 12) :=
  ⟨⟨by decide, by norm_num, by decide⟩,
    (C1_aligned_power_of_two_regions ⟨0x1000, 0x3000⟩ 12 (by decide) (by norm_num)
      (by decide)).1⟩

/-! ## C5 -/

lemma covered_nil : covered [] = ∅ := by
  ext a
  simp [covered]

lemma covered_cons (r : MemoryRegion) (l : List MemoryRegion) :
    covered (r :: l) = Set.Ico r.base r.end_ ∪ covered l := by
  ext a
  simp only [covered, List.mem_cons, Set.mem_setOf_eq, Set.mem_union, Set.mem_Ico]
  constructor
  · rintro ⟨r', (rfl | hr), h⟩
    · exact Or.inl h
    · exact Or.inr ⟨r', hr, h⟩
  · rintro (h | ⟨r', hr, h⟩)
    · exact ⟨r, Or.inl rfl, h⟩
    · exact ⟨r', Or.inr hr, h⟩

lemma regions_check_iff (l : List MemoryRegion) :
    regions_check l = true ↔ List.Chain' (fun a b => a.end_ ≤ b.base) l := by
  induction l with
  | nil => simp [regions_check]
  | cons r rs ih =>
      cases rs with
      | nil => simp [regions_check]
      | cons r2 rs2 =>
          rw [regions_check, List.chain'_cons, Bool.and_eq_true,
            decide_eq_true_iff, ih]

lemma check_head_le (r : MemoryRegion) (rs : List MemoryRegion)
    (hwf : regions_wf rs)
    (hch : List.Chain' (fun a b => a.end_ ≤ b.base) (r :: rs)) :
    ∀ m ∈ rs, r.end_ ≤ m.base := by
  induction rs generalizing r with
  | nil => intro m hm; exact absurd hm (by simp)
  | cons r2 rs ih =>
      rw [List.chain'_cons] at hch
      intro m hm
      rcases List.mem_cons.mp hm with rfl | hm
      · exact hch.1
      · have h2 : r2.base ≤ r2.end_ := hwf r2 (List.mem_cons_self _ _)
        have h3 := ih r2 (fun x hx => hwf x (List.mem_cons_of_mem _ hx)) hch.2 m hm
        omega

lemma insert_region_mem (l : List MemoryRegion) (b e : Nat) (m : MemoryRegion) :
    m ∈ insert_region l b e ↔ m = ⟨b, e⟩ ∨ m ∈ l := by
  induction l with
  | nil => simp [insert_region]
  | cons r rs ih =>
      unfold insert_region
      split
      · simp
      · simp only [List.mem_cons, ih]
        tauto

lemma covered_insert (l : List MemoryRegion) (b e : Nat) :
    covered (insert_region l b e) = covered l ∪ Set.Ico b e := by
  ext a
  simp only [covered, Set.mem_union, Set.mem_setOf_eq, Set.mem_Ico]
  constructor
  · rintro ⟨r, hr, h⟩
    rcases (insert_region_mem l b e r).mp hr with rfl | hr
    · exact Or.inr h
    · exact Or.inl ⟨r, hr, h⟩
  · rintro (⟨r, hr, h⟩ | h)
    · exact ⟨r, (insert_region_mem l b e r).mpr (Or.inr hr), h⟩
    · exact ⟨⟨b, e⟩, (insert_region_mem l b e ⟨b, e⟩).mpr (Or.inl rfl), h⟩

lemma insert_region_wf (l : List MemoryRegion) (b e : Nat)
    (hwf : regions_wf l) (hbe : b ≤ e) : regions_wf (insert_region l b e) := by
  intro m hm
  rcases (insert_region_mem l b e m).mp hm with rfl | hm
  · exact hbe
  · exact hwf m hm

lemma insert_region_chain (l : List MemoryRegion) (b e : Nat)
    (hwf : regions_wf l)
    (hch : List.Chain' (fun a b => a.end_ ≤ b.base) l)
    (hpre : ∀ r ∈ l, e < r.base ∨ r.end_ ≤ b) :
    List.Chain' (fun a b => a.end_ ≤ b.base) (insert_region l b e) := by
  induction l with
  | nil => simp [insert_region]
  | cons r rs ih =>
      unfold insert_region
      split
      · rw [List.chain'_cons]
        exact ⟨by simp only; omega, hch⟩
      · rename_i hnot
        have hrb : r.end_ ≤ b := by
          rcases hpre r (List.mem_cons_self _ _) with h | h
          · omega
          · exact h
        rw [List.chain'_cons']
        refine ⟨?_, ih (fun x hx => hwf x (List.mem_cons_of_mem _ hx))
          ((List.chain'_cons'.mp hch).2)
          (fun x hx => hpre x (List.mem_cons_of_mem _ hx))⟩
        intro y hy
        have hy' : y ∈ insert_region rs b e := List.mem_of_mem_head? hy
        rcases (insert_region_mem rs b e y).mp hy' with rfl | hy'
        · exact hrb
        · exact check_head_le r rs (fun x hx => hwf x (List.mem_cons_of_mem _ hx))
            hch y hy'

lemma set_diff_exact (S : Set Nat) (b e : Nat)
    (hd : ∀ a ∈ S, ¬(b ≤ a ∧ a < e)) :
    S = (Set.Ico b e ∪ S) \ Set.Ico b e := by
  ext a
  simp only [Set.mem_union, Set.mem_diff, Set.mem_Ico]
  constructor
  · intro ha
    exact ⟨Or.inr ha, hd a ha⟩
  · rintro ⟨h1 | h1, h2⟩
    · exact absurd h1 h2
    · exact h1

lemma set_diff_prefix (S : Set Nat) (b e re : Nat)
    (hd : ∀ a ∈ S, ¬(b ≤ a ∧ a < e)) (h1 : b ≤ e) (h2 : e ≤ re) :
    Set.Ico e re ∪ S = (Set.Ico b re ∪ S) \ Set.Ico b e := by
  ext a
  simp only [Set.mem_union, Set.mem_diff, Set.mem_Ico]
  constructor
  · rintro (⟨ha1, ha2⟩ | ha)
    · exact ⟨Or.inl ⟨by omega, ha2⟩, by omega⟩
    · exact ⟨Or.inr ha, hd a ha⟩
  · rintro ⟨ha1 | ha1, ha2⟩
    · exact Or.inl ⟨by omega, ha1.2⟩
    · exact Or.inr ha1

lemma set_diff_suffix (S : Set Nat) (rb b e : Nat)
    (hd : ∀ a ∈ S, ¬(b ≤ a ∧ a < e)) (h1 : rb ≤ b) (h2 : b ≤ e) :
    Set.Ico rb b ∪ S = (Set.Ico rb e ∪ S) \ Set.Ico b e := by
  ext a
  simp only [Set.mem_union, Set.mem_diff, Set.mem_Ico]
  constructor
  · rintro (⟨ha1, ha2⟩ | ha)
    · exact ⟨Or.inl ⟨ha1, by omega⟩, by omega⟩
    · exact ⟨Or.inr ha, hd a ha⟩
  · rintro ⟨ha1 | ha1, ha2⟩
    · exact Or.inl ⟨ha1.1, by omega⟩
    · exact Or.inr ha1

lemma set_diff_split (S : Set Nat) (rb b e re : Nat)
    (hd : ∀ a ∈ S, ¬(b ≤ a ∧ a < e)) (h1 : rb ≤ b) (h2 : b ≤ e) (h3 : e ≤ re) :
    Set.Ico rb b ∪ (Set.Ico e re ∪ S) = (Set.Ico rb re ∪ S) \ Set.Ico b e := by
  ext a
  simp only [Set.mem_union, Set.mem_diff, Set.mem_Ico]
  constructor
  · rintro (⟨ha1, ha2⟩ | ⟨ha1, ha2⟩ | ha)
    · exact ⟨Or.inl ⟨ha1, by omega⟩, by omega⟩
    · exact ⟨Or.inl ⟨by omega, ha2⟩, by omega⟩
    · exact ⟨Or.inr ha, hd a ha⟩
  · rintro ⟨ha1 | ha1, ha2⟩
    · by_cases hab : a < b
      · exact Or.inl ⟨ha1.1, hab⟩
      · exact Or.inr (Or.inl ⟨by omega, ha1.2⟩)
    · exact Or.inr (Or.inr ha1)

lemma set_diff_skip (S : Set Nat) (rb re b e : Nat)
    (hre : re ≤ b) :
    Set.Ico rb re ∪ (S \ Set.Ico b e) = (Set.Ico rb re ∪ S) \ Set.Ico b e := by
  ext a
  simp only [Set.mem_union, Set.mem_diff, Set.mem_Ico]
  constructor
  · rintro (⟨ha1, ha2⟩ | ⟨ha, ha2⟩)
    · exact ⟨Or.inl ⟨ha1, ha2⟩, by omega⟩
    · exact ⟨Or.inr ha, ha2⟩
  · rintro ⟨ha1 | ha1, ha2⟩
    · exact Or.inl ha1
    · exact Or.inr ⟨ha1, ha2⟩

lemma remove_region_spec : ∀ (l : List MemoryRegion) (b e : Nat),
    regions_wf l →
    List.Chain' (fun a b => a.end_ ≤ b.base) l →
    b ≤ e →
    (∃ r ∈ l, r.base ≤ b ∧ e ≤ r.end_) →
    ∃ l', remove_region l b e = some l' ∧ regions_wf l' ∧
      List.Chain' (fun a b => a.end_ ≤ b.base) l' ∧
      covered l' = covered l \ Set.Ico b e ∧
      (∀ lb, (∀ m ∈ l, lb ≤ m.base) → ∀ m ∈ l', lb ≤ m.base) := by
  intro l
  induction l with
  | nil =>
      intro b e _ _ _ hcont
      obtain ⟨r, hr, -⟩ := hcont
      exact absurd hr (by simp)
  | cons r rs ih =>
      intro b e hwf hch hbe hcont
      have hwfr : r.base ≤ r.end_ := hwf r (List.mem_cons_self _ _)
      have hwfrs : regions_wf rs := fun x hx => hwf x (List.mem_cons_of_mem _ hx)
      have hchrs : List.Chain' (fun a b => a.end_ ≤ b.base) rs :=
        (List.chain'_cons'.mp hch).2
      have hhead := check_head_le r rs hwfrs hch
      by_cases hcond : r.base ≤ b ∧ e ≤ r.end_
      · -- the head region contains the removed interval
        have hdisj : ∀ a ∈ covered rs, ¬(b ≤ a ∧ a < e) := by
          intro a ha hba
          obtain ⟨m, hm, hma1, hma2⟩ := ha
          have := hhead m hm
          omega
        unfold remove_region
        rw [if_pos hcond]
        by_cases hx1 : r.base = b ∧ r.end_ = e
        · refine ⟨rs, by rw [if_pos hx1], hwfrs, hchrs, ?_, ?_⟩
          · rw [covered_cons, hx1.1, hx1.2]
            exact set_diff_exact (covered rs) b e hdisj
          · intro lb hlb m hm
            exact hlb m (List.mem_cons_of_mem _ hm)
        · rw [if_neg hx1]
          by_cases hx2 : r.base = b
          · refine ⟨MemoryRegion.mk e r.end_ :: rs, by rw [if_pos hx2],
              ?_, ?_, ?_, ?_⟩
            · intro m hm
              rcases List.mem_cons.mp hm with rfl | hm
              · exact hcond.2
              · exact hwfrs m hm
            · rw [List.chain'_cons']
              exact ⟨fun y hy => hhead y (List.mem_of_mem_head? hy), hchrs⟩
            · rw [covered_cons, covered_cons, hx2]
              exact set_diff_prefix (covered rs) b e r.end_ hdisj hbe hcond.2
            · intro lb hlb m hm
              rcases List.mem_cons.mp hm with rfl | hm
              · have := hlb r (List.mem_cons_self _ _)
                simp only
                omega
              · exact hlb m (List.mem_cons_of_mem _ hm)
          · by_cases hx3 : r.end_ = e
            · refine ⟨MemoryRegion.mk r.base b :: rs,
                by rw [if_neg hx2, if_pos hx3], ?_, ?_, ?_, ?_⟩
              · intro m hm
                rcases List.mem_cons.mp hm with rfl | hm
                · exact hcond.1
                · exact hwfrs m hm
              · rw [List.chain'_cons']
                refine ⟨?_, hchrs⟩
                intro y hy
                have := hhead y (List.mem_of_mem_head? hy)
                simp only
                omega
              · rw [covered_cons, covered_cons, hx3]
                exact set_diff_suffix (covered rs) r.base b e hdisj hcond.1 hbe
              · intro lb hlb m hm
                rcases List.mem_cons.mp hm with rfl | hm
                · exact hlb r (List.mem_cons_self _ _)
                · exact hlb m (List.mem_cons_of_mem _ hm)
            · refine ⟨MemoryRegion.mk r.base b :: MemoryRegion.mk e r.end_ :: rs,
                by rw [if_neg hx2, if_neg hx3], ?_, ?_, ?_, ?_⟩
              · intro m hm
                rcases List.mem_cons.mp hm with rfl | hm
                · exact hcond.1
                · rcases List.mem_cons.mp hm with rfl | hm
                  · exact hcond.2
                  · exact hwfrs m hm
              · rw [List.chain'_cons, List.chain'_cons']
                refine ⟨by simp only; omega,
                  fun y hy => hhead y (List.mem_of_mem_head? hy), hchrs⟩
              · rw [covered_cons, covered_cons, covered_cons]
                exact set_diff_split (covered rs) r.base b e r.end_ hdisj
                  hcond.1 hbe hcond.2
              · intro lb hlb m hm
                have hlbr := hlb r (List.mem_cons_self _ _)
                rcases List.mem_cons.mp hm with rfl | hm
                · exact hlbr
                · rcases List.mem_cons.mp hm with rfl | hm
                  · simp only; omega
                  · exact hlb m (List.mem_cons_of_mem _ hm)
      · -- the container lies deeper in the list
        obtain ⟨r', hr', hr'1, hr'2⟩ := hcont
        have hr'rs : r' ∈ rs := by
          rcases List.mem_cons.mp hr' with rfl | h
          · exact absurd ⟨hr'1, hr'2⟩ hcond
          · exact h
        have hrb : r.end_ ≤ b := le_trans (hhead r' hr'rs) hr'1
        obtain ⟨l'', hrec, hwf'', hch'', hcov'', hlb''⟩ :=
          ih b e hwfrs hchrs hbe ⟨r', hr'rs, hr'1, hr'2⟩
        refine ⟨r :: l'', ?_, ?_, ?_, ?_, ?_⟩
        · unfold remove_region
          rw [if_neg hcond, hrec]
          rfl
        · intro m hm
          rcases List.mem_cons.mp hm with rfl | hm
          · exact hwfr
          · exact hwf'' m hm
        · rw [List.chain'_cons']
          refine ⟨?_, hch''⟩
          intro y hy
          exact hlb'' r.end_ hhead y (List.mem_of_mem_head? hy)
        · rw [covered_cons, covered_cons, hcov'']
          exact set_diff_skip (covered rs) r.base r.end_ b e hrb
        · intro lb hlb m hm
          rcases List.mem_cons.mp hm with rfl | hm
          · exact hlb _ (List.mem_cons_self _ _)
          · exact hlb'' lb (fun x hx => hlb x (List.mem_cons_of_mem _ hx)) m hm

/-- C5 counterexample: starting from the valid state `[[1,2)]` (obtained by a
first insert), inserting `[0,1)` — which overlaps no existing member, as the
claim requires — appends it after `[1,2)`, and the stored list is no longer
sorted: `_check`'s sorted/non-overlap assertion fails. -/
theorem C5_counterexample :
    insert_region [] 1 2 = [⟨1, 2⟩] ∧
    no_overlap [] 1 2 = true ∧
    no_overlap [⟨1, 2⟩] 0 1 = true ∧
    insert_region [⟨1, 2⟩] 0 1 = [⟨1, 2⟩, ⟨0, 1⟩] ∧
    regions_check [⟨1, 2⟩, ⟨0, 1⟩] = false := by decide

/-- C5 amended: for every sequence of insert/remove operations in which each
inserted region `[b, e)` is well-formed and satisfies, against every existing
member, `e < member.base ∨ member.end ≤ b` (disjoint and not ending exactly
at a member's base — the strengthening the counterexample forces), and each
removed region is a well-formed interval contained in one member, every
operation succeeds, after each operation the stored list is sorted and
pairwise non-overlapping, and its covered set equals the initial covered set
plus the inserted intervals minus the removed intervals, applied in
sequence order. -/
theorem C5_amended_region_ops (l : List MemoryRegion) (ops : List RegionOp)
    (hwf : regions_wf l) (hchk : regions_check l = true)
    (hops : ops_ok l ops) :
    ∃ l', apply_ops l ops = some l' ∧ regions_wf l' ∧
      regions_check l' = true ∧
      covered l' = target_set (covered l) ops := by
  induction ops generalizing l with
  | nil => exact ⟨l, rfl, hwf, hchk, rfl⟩
  | cons op ops ih =>
      obtain ⟨hop, hrest⟩ := hops
      have hch := (regions_check_iff l).mp hchk
      cases op with
      | ins b e =>
          obtain ⟨hbe, hpre⟩ := hop
          have hwf1 := insert_region_wf l b e hwf hbe
          have hch1 := insert_region_chain l b e hwf hch hpre
          have hcov1 := covered_insert l b e
          simp only [apply_op] at hrest
          obtain ⟨l', h1, h2, h3, h4⟩ := ih (insert_region l b e) hwf1
            ((regions_check_iff _).mpr hch1) hrest
          refine ⟨l', ?_, h2, h3, ?_⟩
          · simp only [apply_ops, apply_op]
            exact h1
          · rw [h4, hcov1, target_set]
      | rem b e =>
          obtain ⟨hbe, hcont⟩ := hop
          obtain ⟨l1, hrem, hwf1, hch1, hcov1, -⟩ :=
            remove_region_spec l b e hwf hch hbe hcont
          simp only [apply_op, hrem] at hrest
          obtain ⟨l', h1, h2, h3, h4⟩ := ih l1 hwf1
            ((regions_check_iff _).mpr hch1) hrest
          refine ⟨l', ?_, h2, h3, ?_⟩
          · simp only [apply_ops, apply_op, hrem]
            exact h1
          · rw [h4, hcov1, target_set]

/-- Witness for C5's amended claim: from the empty set, insert `[0,16)` and
`[32,48)`, then remove `[4,8)`. -/
theorem C5_amended_region_ops_witness :
    ∃ l', apply_ops []
        [RegionOp.ins 0 16, RegionOp.ins 32 48, RegionOp.rem 4 8] = some l' ∧
      regions_wf l' ∧ regions_check l' = true := by
  obtain ⟨l', h1, h2, h3, -⟩ := C5_amended_region_ops []
    [RegionOp.ins 0 16, RegionOp.ins 32 48, RegionOp.rem 4 8]
    (by intro r hr; exact absurd hr (by simp))
    (by decide)
    (by
      refine ⟨⟨by decide, ?_⟩, ⟨by decide, ?_⟩, ⟨by decide, ?_⟩, trivial⟩
      · intro r hr
        exact absurd hr (by simp)
      · intro r hr
        rcases List.mem_singleton.mp hr with rfl
        right
        decide
      · exact ⟨⟨0, 16⟩, by decide, by decide, by decide⟩)
  exact ⟨l', h1, h2, h3⟩

end Microkit
